import Mathlib

/-!
# Verification of `parseStatements.py` (Monthly)

A shallow embedding of the transaction reconciliation script
`src/parseStatements.py`.  Python strings are modelled as `List Char`,
floats as `ℚ`, `datetime` values as a six-field record `DT`, spreadsheet
cells as the inductive `Cell`.  Python `strptime` on the five fixed
layouts used by `parse_date` is embedded at the character level: a
format such as "%d-%m-%Y" splits the input on its separator and matches
each field against the corresponding field pattern (1-2 digits in range
for %d and %m, exactly 4 digits for %Y, mirroring CPython's `_strptime`
regexes), followed by the `datetime` constructor's calendar validation.
-/

namespace Monthly

/-! ## Characters and digit strings -/

/-- The blank characters Python's `str.strip` removes.  The repository's
date strings only ever carry ordinary spaces. -/
def isSpaceC (c : Char) : Bool := c = ' ' || c = '\t' || c = '\n' || c = '\r'

/-- The decimal digit character for `k % 10`. -/
def digitC (k : Nat) : Char := Char.ofNat (48 + k % 10)

/-- Numeric value of a digit character. -/
def digitVal (c : Char) : Nat := c.toNat - 48

/-- All characters are decimal digits. -/
def allDigits (s : List Char) : Bool := s.all (fun c => c.isDigit)

/-- Value of a digit string, most significant first. -/
def valOfDigits (s : List Char) : Nat := s.foldl (fun acc c => 10 * acc + digitVal c) 0

/-- Two-digit zero-padded rendering (strftime `%d` / `%m`). -/
def pad2 (n : Nat) : List Char := [digitC (n / 10), digitC n]

/-- Four-digit zero-padded rendering (strftime `%Y` for four-digit years). -/
def pad4 (n : Nat) : List Char := [digitC (n / 1000), digitC (n / 100), digitC (n / 10), digitC n]

/-- Split on a separator character; mirrors Python's `str.split(sep)`
restricted to single-character separators. -/
def splitOnC (sep : Char) : List Char → List (List Char)
  | [] => [[]]
  | c :: cs =>
    match splitOnC sep cs with
    | [] => [[]]
    | h :: t => if c = sep then [] :: h :: t else (c :: h) :: t

/-- `str.strip()`. -/
def stripChars (s : List Char) : List Char :=
  ((s.dropWhile isSpaceC).reverse.dropWhile isSpaceC).reverse

/-- Bool test: `p` is a leading segment of `s`. -/
def startsWithB : List Char → List Char → Bool
  | [], _ => true
  | _ :: _, [] => false
  | a :: as, b :: bs => a = b && startsWithB as bs

/-- Bool test for Python's `p in s` substring containment. -/
def containsB (p : List Char) : List Char → Bool
  | [] => startsWithB p []
  | c :: rest => startsWithB p (c :: rest) || containsB p rest

/-! ## Dates (`datetime` values) -/

/-- A Python `datetime`: the account-statement pipeline parses values
with a time of day, the other pipelines produce midnight values. -/
structure DT where
  year : Nat
  month : Nat
  day : Nat
  hour : Nat
  minute : Nat
  second : Nat
deriving DecidableEq, Repr

/-- Field list used for the lexicographic comparison Python performs on
`datetime` values. -/
def DT.toL (d : DT) : List Nat := [d.year, d.month, d.day, d.hour, d.minute, d.second]

/-- Lexicographic strict order on equal-length number lists. -/
def lexLt : List Nat → List Nat → Bool
  | [], [] => false
  | [], _ :: _ => true
  | _ :: _, [] => false
  | a :: as, b :: bs => if a < b then true else if b < a then false else lexLt as bs

/-- `a < b` on datetimes. -/
def dtLtB (a b : DT) : Bool := lexLt a.toL b.toL

/-- `a <= b` on datetimes. -/
def dtLeB (a b : DT) : Bool := !(dtLtB b a)

/-- Gregorian leap-year rule (as `calendar.isleap` / `datetime`). -/
def isLeap (y : Nat) : Bool := (y % 4 = 0 && y % 100 ≠ 0) || y % 400 = 0

/-- Days in a month, as validated by the `datetime` constructor. -/
def daysInMonth (y m : Nat) : Nat :=
  if m = 2 then (if isLeap y then 29 else 28)
  else if m = 4 || m = 6 || m = 9 || m = 11 then 30
  else 31

/-- The `datetime(year, month, day)` constructor's range validation. -/
def validYMD (y m d : Nat) : Bool :=
  decide (1 ≤ y) && decide (y ≤ 9999) && decide (1 ≤ m) && decide (m ≤ 12) &&
    decide (1 ≤ d) && decide (d ≤ daysInMonth y m)

/-- Build a midnight `datetime` after constructor validation. -/
def mkDT (y m d : Nat) : Option DT :=
  if validYMD y m d then some ⟨y, m, d, 0, 0, 0⟩ else none

/-! ## `parse_date` (src/parseStatements.py lines 123-155) -/

/-- `_strptime`'s field pattern for `%d` (lo=1, hi=31) and `%m` (lo=1,
hi=12): one or two digit characters whose value lies in range. -/
def parseField (lo hi : Nat) (s : List Char) : Option Nat :=
  if (s.length = 1 ∨ s.length = 2) ∧ allDigits s = true ∧
      lo ≤ valOfDigits s ∧ valOfDigits s ≤ hi then
    some (valOfDigits s)
  else none

/-- `_strptime`'s field pattern for `%Y`: exactly four digit characters. -/
def parseYearF (s : List Char) : Option Nat :=
  if s.length = 4 ∧ allDigits s = true then some (valOfDigits s) else none

/-- `strptime` with format `%d sep %m sep %Y`. -/
def parseDMY (sep : Char) (s : List Char) : Option DT :=
  match splitOnC sep s with
  | [f1, f2, f3] =>
    match parseField 1 31 f1, parseField 1 12 f2, parseYearF f3 with
    | some d, some m, some y => mkDT y m d
    | _, _, _ => none
  | _ => none

/-- `strptime` with format `%Y sep %m sep %d`. -/
def parseYMD (sep : Char) (s : List Char) : Option DT :=
  match splitOnC sep s with
  | [f1, f2, f3] =>
    match parseYearF f1, parseField 1 12 f2, parseField 1 31 f3 with
    | some y, some m, some d => mkDT y m d
    | _, _, _ => none
  | _ => none

/-- `strptime` with format `%m sep %d sep %Y`. -/
def parseMDY (sep : Char) (s : List Char) : Option DT :=
  match splitOnC sep s with
  | [f1, f2, f3] =>
    match parseField 1 12 f1, parseField 1 31 f2, parseYearF f3 with
    | some m, some d, some y => mkDT y m d
    | _, _, _ => none
  | _ => none

/-- `parse_date` on a string argument: strip, then try the five layouts
in the source's fixed order, returning the first success. -/
def parse_date (s0 : List Char) : Option DT :=
  let s := stripChars s0
  match parseDMY '-' s with
  | some d => some d
  | none =>
    match parseDMY '.' s with
    | some d => some d
    | none =>
      match parseYMD '-' s with
      | some d => some d
      | none =>
        match parseDMY '/' s with
        | some d => some d
        | none => parseMDY '/' s

/-! ## strftime renderings used by the script -/

/-- `strftime("%d.%m.%Y")` and the other day-first layouts. -/
def renderDMY (sep : Char) (x : DT) : List Char :=
  pad2 x.day ++ sep :: (pad2 x.month ++ sep :: pad4 x.year)

/-- `strftime("%Y-%m-%d")`, the deduplication-key date rendering. -/
def renderYMD (x : DT) : List Char :=
  pad4 x.year ++ '-' :: (pad2 x.month ++ '-' :: pad2 x.day)

/-- `strftime("%m/%d/%Y")`. -/
def renderMDY (x : DT) : List Char :=
  pad2 x.month ++ '/' :: (pad2 x.day ++ '/' :: pad4 x.year)

/-- `str(datetime)`, e.g. "2025-11-13 14:07:59". -/
def renderFull (x : DT) : List Char :=
  renderYMD x ++ ' ' :: (pad2 x.hour ++ ':' :: (pad2 x.minute ++ ':' :: pad2 x.second))

/-! ## `str.replace` (used for the operation markers) -/

/-- Fuel-indexed replace-all; the fuel is the string length, which
bounds the number of recursion steps. -/
def replaceAllF : Nat → List Char → List Char → List Char → List Char
  | 0, _, _, s => s
  | fuel + 1, p, r, s =>
    match s with
    | [] => []
    | c :: cs =>
      if p ≠ [] ∧ startsWithB p (c :: cs) = true then
        r ++ replaceAllF fuel p r ((c :: cs).drop p.length)
      else c :: replaceAllF fuel p r cs

/-- Python's `s.replace(p, r)`: replace every occurrence of `p`. -/
def replaceAll (p r s : List Char) : List Char := replaceAllF s.length p r s

/-! ## Categorizers (src/parseStatements.py lines 11-121) -/

/-- One merchant rule: (search_term, cleaned_name, category). -/
structure MRule where
  pat : List Char
  name : List Char
  cat : List Char
deriving DecidableEq

/-- The `merchant_categories` table, in source order. -/
def merchant_categories : List MRule := [
  ⟨"Migros".data, "Migros".data, "Food".data⟩,
  ⟨"Aldi".data, "Aldi".data, "Food".data⟩,
  ⟨"Denner".data, "Denner".data, "Food".data⟩,
  ⟨"LAUSANNE10".data, "LAUSANNE10".data, "Food".data⟩,
  ⟨"Manor".data, "Manor".data, "Food".data⟩,
  ⟨"Coop".data, "Coop".data, "Food".data⟩,
  ⟨"Jumbo".data, "Jumbo".data, "Home".data⟩,
  ⟨"L\x27Instant Chocolat".data, "L\x27Instant Chocolat".data, "Food".data⟩,
  ⟨"APPLE.COM".data, "APPLE.COM".data, "Media".data⟩,
  ⟨"THE NEW YORK TIMES".data, "THE NEW YORK TIMES".data, "Media".data⟩,
  ⟨"THE ATHLETIC".data, "THE ATHLETIC".data, "Media".data⟩,
  ⟨"Tesla".data, "Tesla".data, "Car".data⟩,
  ⟨"Prime Video".data, "Prime Video".data, "Media".data⟩,
  ⟨"Sun Store".data, "Pharmacie-Sunstore".data, "Health".data⟩,
  ⟨"Pharmacie-Sunstore".data, "Pharmacie-Sunstore".data, "Health".data⟩,
  ⟨"Droguerie Jaquet".data, "Droguerie Jaquet".data, "Health".data⟩,
  ⟨"Sakura Sushi".data, "Sakura Sushi".data, "Food".data⟩,
  ⟨"Boutique Ravann".data, "Boutique Ravann".data, "Food".data⟩,
  ⟨"SBB CFF".data, "SBB CFF".data, "Transport".data⟩,
  ⟨"Brezelkönig".data, "Brezelkönig".data, "Food".data⟩,
  ⟨"Zalando".data, "Zalando".data, "Clothing".data⟩,
  ⟨"BestDrive".data, "BestDrive".data, "Car".data⟩,
  ⟨"KymeM Cafe".data, "KymeM Cafe".data, "Restaurant".data⟩,
  ⟨"Pizzeria Vecchia".data, "Pizzeria Vecchia Napoli".data, "Restaurant".data⟩,
  ⟨"NETFLIX.COM".data, "NETFLIX.COM".data, "Media".data⟩,
  ⟨"Netflix.com".data, "NETFLIX.COM".data, "Media".data⟩,
  ⟨"Salt".data, "Salt Mobile SA".data, "Media".data⟩,
  ⟨"salt.ch".data, "Salt Mobile SA".data, "Media".data⟩,
  ⟨"Patreon".data, "Patreon".data, "Media".data⟩,
  ⟨"Association Golf de La Puidoux".data, "Association Golf de La Puidoux".data, "Hobby".data⟩,
  ⟨"Exotic Food Center".data, "Exotic Food Center".data, "Food".data⟩,
  ⟨"Aux Merveilleux".data, "Aux Merveilleux".data, "Food".data⟩,
  ⟨"Appunto Rest.".data, "Appunto Rest.".data, "Food".data⟩,
  ⟨"QoQa Services SA".data, "QoQa".data, "?".data⟩,
  ⟨"DAZN".data, "DAZN".data, "Media".data⟩,
  ⟨"URUMQI".data, "URUMQI".data, "Food".data⟩,
  ⟨"La Cavagne".data, "La Cavagne".data, "Food".data⟩]

/-- First merchant rule whose pattern is contained in the text. -/
def findFirstM (rules : List MRule) (s : List Char) : Option (List Char × List Char) :=
  match rules with
  | [] => none
  | r :: rs => if containsB r.pat s then some (r.name, r.cat) else findFirstM rs s

/-- `clean_merchant_and_categorize`: `none` models a null/NaN input. -/
def clean_merchant_and_categorize (m : Option (List Char)) : List Char × List Char :=
  match m with
  | none => ([], [])
  | some s =>
    match findFirstM merchant_categories s with
    | some nc => nc
    | none => (s, [])

/-- One bank-operation rule: (search_term, cleaned_name-or-None,
category, sub_category). -/
structure BRule where
  pat : List Char
  name : Option (List Char)
  cat : List Char
  sub : List Char
deriving DecidableEq

/-- The `bank_categories` table, in source order. -/
def bank_categories : List BRule := [
  ⟨"Distalmotion".data, none, "Salary".data, "".data⟩,
  ⟨"Duol".data, none, "Chant Cred".data, "Duol".data⟩,
  ⟨"INSTITUT LE CHATELARD".data, none, "Chant Cred".data, "Chatelard".data⟩,
  ⟨"Leni".data, none, "Kids Deb".data, "".data⟩,
  ⟨"Assura-Basis".data, none, "Health".data, "".data⟩,
  ⟨"Etat de Vaud Impôts".data, none, "Impot".data, "".data⟩,
  ⟨"Swisscom ".data, none, "Media".data, "".data⟩,
  ⟨"Sunrise".data, none, "Media".data, "".data⟩,
  ⟨"Salt".data, none, "Media".data, "".data⟩,
  ⟨"Koloristika".data, none, "Chant".data, "".data⟩,
  ⟨"Planchamp, Xavier".data, none, "Rent".data, "".data⟩,
  ⟨"Baptiste Dujardin".data, none, "Food".data, "".data⟩,
  ⟨"Caisse de pensions de".data, some "Parking".data, "Car".data, "".data⟩,
  ⟨"PPE LE CAMPUS".data, none, "Home Crosets".data, "".data⟩,
  ⟨"Romande Energie SA".data, none, "Home".data, "".data⟩,
  ⟨"Energiapro SA".data, none, "Home".data, "".data⟩,
  ⟨"PPE SUNDANCE".data, none, "Home Crosets".data, "".data⟩,
  ⟨"Caisse AVS de la Feder".data, none, "Alloc".data, "".data⟩]

/-- First bank rule whose pattern is contained in the text. -/
def findFirstB (rules : List BRule) (s : List Char) :
    Option (Option (List Char) × List Char × List Char) :=
  match rules with
  | [] => none
  | r :: rs => if containsB r.pat s then some (r.name, r.cat, r.sub) else findFirstB rs s

/-- Lines 22-28: strip the three source markers ("BCV-NET ",
"VIRT BANC ", "VIR TWINT ") wherever they occur, in source order. -/
def cleanOperationStr (s : List Char) : List Char :=
  let s1 := if containsB "BCV-NET ".data s then replaceAll "BCV-NET ".data [] s else s
  let s2 := if containsB "VIRT BANC ".data s1 then replaceAll "VIRT BANC ".data [] s1 else s1
  if containsB "VIR TWINT ".data s2 then replaceAll "VIR TWINT ".data [] s2 else s2

/-- `clean_bank_operation_and_categorize`: `none` models a null/NaN
input.  A matched rule with `name = none` keeps the stripped operation
text (line 56). -/
def clean_bank_operation_and_categorize (op : Option (List Char)) :
    List Char × List Char × List Char :=
  match op with
  | none => ([], [], [])
  | some s =>
    let s' := cleanOperationStr s
    match findFirstB bank_categories s' with
    | some (n, c, sub) => (n.getD s', c, sub)
    | none => (s', [], [])

/-! ## Spreadsheet cells -/

/-- Decimal rendering of a natural number (no leading zeros). -/
def natStrF : Nat → Nat → List Char
  | 0, _ => []
  | fuel + 1, n => if n < 10 then [digitC n] else natStrF fuel (n / 10) ++ [digitC n]

/-- `str` of a natural number. -/
def natStr (n : Nat) : List Char := natStrF (n + 1) n

/-- `str` of an integer. -/
def intStr : Int → List Char
  | Int.ofNat n => natStr n
  | Int.negSucc n => '-' :: natStr (n + 1)

/-- A simple rendering of a rational.  Python renders floats in decimal
notation; no claim depends on the exact text of a numeric cell, only
that it is some fixed string, so an exact float repr is not modelled. -/
def ratStr (q : ℚ) : List Char :=
  intStr q.num ++ (if q.den = 1 then [] else '/' :: natStr q.den)

/-- An openpyxl cell value as this script consumes it: `empty` is
`None`, `text` a string, `num` a float, `date` a datetime. -/
inductive Cell where
  | empty : Cell
  | text : List Char → Cell
  | num : ℚ → Cell
  | date : DT → Cell
deriving DecidableEq

/-- Python truthiness, as used in `if date_val and merchant_val and
amount_val:` — `None`, `""` and `0` are falsy, datetimes are truthy. -/
def truthy : Cell → Bool
  | Cell.empty => false
  | Cell.text s => !s.isEmpty
  | Cell.num q => decide (q ≠ 0)
  | Cell.date _ => true

/-- Python's `float(text)` on plain decimal literals (optional sign,
optional fractional part).  Exponents and exotic spellings do not occur
in the repository's data and are not modelled. -/
def parseFloatQ (s0 : List Char) : Option ℚ :=
  let s1 := stripChars s0
  let signed : Bool × List Char :=
    match s1 with
    | '-' :: r => (true, r)
    | '+' :: r => (false, r)
    | r => (false, r)
  let mag : Option ℚ :=
    match splitOnC '.' signed.2 with
    | [ip] => if ip ≠ [] ∧ allDigits ip = true then some ((valOfDigits ip : ℚ)) else none
    | [ip, fp] =>
      if (ip ≠ [] ∨ fp ≠ []) ∧ allDigits ip = true ∧ allDigits fp = true then
        some ((valOfDigits ip : ℚ) + (valOfDigits fp : ℚ) / ((10 : ℚ) ^ fp.length))
      else none
    | _ => none
  match mag with
  | none => none
  | some q => some (if signed.1 then -q else q)

/-- `float(cell)`: floats pass through, strings are parsed, `None` and
datetimes raise (`TypeError`), which the script catches. -/
def cellFloat : Cell → Option ℚ
  | Cell.num q => some q
  | Cell.text s => parseFloatQ s
  | Cell.empty => none
  | Cell.date _ => none

/-- `str(cell)` for the non-datetime cases the script reaches. -/
def cellStr : Cell → List Char
  | Cell.empty => "None".data
  | Cell.text s => s
  | Cell.num q => ratStr q
  | Cell.date d => renderFull d

/-- Lines 436-439 / 461-462: a datetime value is used directly,
anything else goes through `parse_date(str(value))`. -/
def cellToDate : Cell → Option DT
  | Cell.date d => some d
  | c => parse_date (cellStr c)

/-! ## Deduplication keys and the existing-key set
(src/parseStatements.py lines 280-299, 521-543, 729-748) -/

/-- A CSV-pipeline key: (date string, merchant string, float amount). -/
abbrev Key : Type := List Char × List Char × ℚ

/-- A destination-ledger row as read back for deduplication: the
columns A (date), B (merchant/operation), C (amount). -/
structure RowA where
  a : Cell
  b : Cell
  c : Cell
deriving DecidableEq

/-- The key one persisted row contributes, if any: all three cells must
be truthy and the amount must convert with `float`; a datetime date
cell is rendered "%Y-%m-%d", any other date cell with `str`. -/
def rowKey : RowA → Option Key
  | ⟨a, b, c⟩ =>
    if truthy a = true ∧ truthy b = true ∧ truthy c = true then
      match cellFloat c with
      | none => none
      | some amt =>
        some (match a with
              | Cell.date d => renderYMD d
              | av => cellStr av,
              cellStr b, amt)
    else none

/-- `existing_data`, built by scanning the ledger rows. -/
def buildExisting (rows : List RowA) : List Key := rows.filterMap rowKey

/-! ## The CSV pipelines' deduplicating writer
(account statements: lines 307-373; credit card: lines 756-822.
The two loops are verbatim copies of each other in the source, so a
single embedding serves both; only the duplicate-reason string and the
target sheet differ.) -/

/-- A normalized, categorized transaction as the writer receives it. -/
structure Trans where
  date : DT
  merchant : List Char
  amount : ℚ
  category : List Char
deriving DecidableEq

/-- The candidate's deduplication key (lines 328-332). -/
def candKey (t : Trans) : Key := (renderYMD t.date, t.merchant, t.amount)

/-- The writer loop (lines 326-373): a candidate whose key is in the
set goes to the duplicates list; otherwise it is appended and its key
added to the set.  Returns (appended, duplicates) in loop order. -/
def processBatch (existing : List Key) : List Trans → List Trans × List Trans
  | [] => ([], [])
  | t :: ts =>
    if candKey t ∈ existing then
      let r := processBatch existing ts
      (r.1, t :: r.2)
    else
      let r := processBatch (candKey t :: existing) ts
      (t :: r.1, r.2)

/-- Lines 313-324: the candidates whose key is not in the initial
existing set, from which the emphasis date is taken. -/
def newToAdd (existing : List Key) (batch : List Trans) : List Trans :=
  batch.filter (fun t => decide (candKey t ∉ existing))

/-- One comparison step of Python's `min`: keep the incumbent unless
the next element is strictly smaller. -/
def minStep (m y : DT) : DT := if dtLtB y m then y else m

/-- Python's `min` over a list of datetimes (`None` when empty). -/
def minD : List DT → Option DT
  | [] => none
  | x :: xs => some (xs.foldl minStep x)

/-- `oldest_date` (line 324). -/
def oldestDate (existing : List Key) (batch : List Trans) : Option DT :=
  minD ((newToAdd existing batch).map (fun t => t.date))

/-- Lines 361-369: the appended rows that receive the bold font. -/
def boldRows (existing : List Key) (batch : List Trans) : List Trans :=
  match oldestDate existing batch with
  | none => []
  | some o => (processBatch existing batch).1.filter (fun t => decide (t.date = o))

/-- Lines 349-355: an appended transaction is written with its date as
dd.mm.yyyy text (number_format '@'), the merchant as text, the amount
as a number. -/
def transToRow (t : Trans) : RowA :=
  ⟨Cell.text (renderDMY '.' t.date), Cell.text t.merchant, Cell.num t.amount⟩

/-- One run of a CSV pipeline's write phase against a target sheet:
build the existing keys, split the batch, append the new rows.
Returns (updated sheet, appended, duplicates). -/
def accountRun (sheet : List RowA) (batch : List Trans) :
    List RowA × List Trans × List Trans :=
  let ex := buildExisting sheet
  let r := processBatch ex batch
  (sheet ++ r.1.map transToRow, r.1, r.2)

/-- A row of the shared "Duplicates" sheet: columns A-D as the ledger
rows plus the fixed reason text in column E. -/
structure DupRow where
  a : Cell
  b : Cell
  c : Cell
  d : Cell
  reason : List Char
deriving DecidableEq

/-- Lines 336-344 / 785-793: the duplicates-sheet row written for a
routed candidate. -/
def dupRowOf (reason : List Char) (t : Trans) : DupRow :=
  ⟨Cell.text (renderDMY '.' t.date), Cell.text t.merchant, Cell.num t.amount,
   Cell.text t.category, reason⟩

/-- The account-statement pipeline's fixed duplicate reason (line 344). -/
def reasonAccount : List Char := "Duplicate from account statement".data

/-- The credit-card pipeline's fixed duplicate reason (line 793). -/
def reasonCredit : List Char := "Duplicate entry".data

/-- A CSV pipeline run including the duplicates sheet it maintains. -/
def accountRunFull (sheet : List RowA) (dupSheet : List DupRow)
    (reason : List Char) (batch : List Trans) :
    List RowA × List DupRow × List Trans × List Trans :=
  let ex := buildExisting sheet
  let r := processBatch ex batch
  (sheet ++ r.1.map transToRow, dupSheet ++ r.2.map (dupRowOf reason), r.1, r.2)

/-! ## Bank-Excel pipeline (src/parseStatements.py lines 389-626) -/

/-- Lines 432-444, one step of the watermark scan: a truthy cell that
yields a date replaces the running latest when strictly greater. -/
def latestStep (acc : Option DT) (c : Cell) : Option DT :=
  if truthy c then
    match cellToDate c with
    | none => acc
    | some d =>
      match acc with
      | none => some d
      | some m => if dtLtB m d then some d else acc
  else acc

/-- `latest_date`: scan of the reference "2025" sheet's column A values
(rows 2 and below; row 1 is the header the source skips). -/
def latestDate (cells : List Cell) : Option DT := cells.foldl latestStep none

/-- The dates the watermark scan can parse out of the sheet. -/
def parseableDates (cells : List Cell) : List DT :=
  cells.filterMap (fun c => if truthy c then cellToDate c else none)

/-- An input (or BCV ledger) row: columns A = execution date,
B = operation, C = debit, D = credit. -/
structure BankRow where
  a : Cell
  b : Cell
  c : Cell
  d : Cell
deriving DecidableEq

/-- A parsed bank transaction record. -/
structure BankTrans where
  date : DT
  operation : List Char
  debit : ℚ
  credit : ℚ
  category : List Char
  sub_category : List Char
deriving DecidableEq

/-- Line 471: the debit value with `pd.notna` fallback to `0`. -/
def debitCell (r : BankRow) : Cell := if r.c ≠ Cell.empty then r.c else Cell.num 0

/-- Line 472: the credit value with `pd.notna` fallback to `0`. -/
def creditCell (r : BankRow) : Cell := if r.d ≠ Cell.empty then r.d else Cell.num 0

/-- Python's `value == 0` on a cell: only a numeric zero compares
equal; strings (even "0"), datetimes and `None` do not. -/
def cellEqZero : Cell → Bool
  | Cell.num q => decide (q = 0)
  | _ => false

/-- Line 486-487: `float(v) if v != 0 else 0`. -/
def floatOrZero (c : Cell) : Option ℚ :=
  if cellEqZero c then some 0 else cellFloat c

/-- Lines 455-490 without the watermark: parse one input row into a
transaction record, `none` when the row is skipped (missing or
unparseable date, missing operation, both amounts `== 0`, or a float
conversion failure). -/
def bankRowParse (r : BankRow) : Option BankTrans :=
  if r.a = Cell.empty then none
  else
    match cellToDate r.a with
    | none => none
    | some d =>
      if r.b = Cell.empty then none
      else
        if cellEqZero (debitCell r) = true ∧ cellEqZero (creditCell r) = true then none
        else
          match clean_bank_operation_and_categorize (some (cellStr r.b)) with
          | (name, cat, sub) =>
            match floatOrZero (debitCell r), floatOrZero (creditCell r) with
            | some dv, some cv => some ⟨d, name, dv, cv, cat, sub⟩
            | _, _ => none

/-- Line 482: the watermark test `latest_date is None or
execution_date > latest_date`. -/
def passW (latest : Option DT) (d : DT) : Bool :=
  match latest with
  | none => true
  | some m => dtLtB m d

/-- The row loop (lines 454-496): parse each row, keep the survivors
whose date passes the watermark, in row order. -/
def bankLoop (latest : Option DT) : List BankRow → List BankTrans
  | [] => []
  | r :: rs =>
    match bankRowParse r with
    | none => bankLoop latest rs
    | some t => if passW latest t.date then t :: bankLoop latest rs else bankLoop latest rs

/-- A bank deduplication key: (date string, operation, debit, credit)
(lines 559-564). -/
abbrev BKey : Type := List Char × List Char × ℚ × ℚ

/-- The candidate's key (lines 572-577). -/
def bankKey (t : BankTrans) : BKey := (renderYMD t.date, t.operation, t.debit, t.credit)

/-- Lines 521-543: the key a persisted BCV row contributes, if any. -/
def bankRowKey (r : BankRow) : Option BKey :=
  if truthy r.a = true ∧ truthy r.b = true ∧ (truthy r.c = true ∨ truthy r.d = true) then
    match (if truthy r.c then cellFloat r.c else some 0),
          (if truthy r.d then cellFloat r.d else some 0) with
    | some df, some cf =>
      some (match r.a with
            | Cell.date d => renderYMD d
            | av => cellStr av,
            cellStr r.b, df, cf)
    | _, _ => none
  else none

/-- The BCV sheet's `existing_data`. -/
def buildExistingBank (rows : List BankRow) : List BKey := rows.filterMap bankRowKey

/-- The bank writer loop (lines 570-612): a duplicate candidate is
skipped and merely counted (`duplicates_skipped`); there is no
duplicates-sheet write in this pipeline.  Returns (appended, count). -/
def bankProcessBatch (existing : List BKey) : List BankTrans → List BankTrans × Nat
  | [] => ([], 0)
  | t :: ts =>
    if bankKey t ∈ existing then
      let r := bankProcessBatch existing ts
      (r.1, r.2 + 1)
    else
      let r := bankProcessBatch (bankKey t :: existing) ts
      (t :: r.1, r.2)

/-- Lines 584-597: the BCV row written for an appended transaction;
a zero debit or credit is written as the empty string. -/
def bankTransToRow (t : BankTrans) : BankRow :=
  ⟨Cell.text (renderDMY '.' t.date), Cell.text t.operation,
   if t.debit ≠ 0 then Cell.num t.debit else Cell.text [],
   if t.credit ≠ 0 then Cell.num t.credit else Cell.text []⟩

/-- The bank write phase over the workbook's BCV and Duplicates sheets:
appends survivors to BCV and leaves the Duplicates sheet untouched
(the loop writes nothing for a duplicate). -/
def bankWritePhase (existing : List BKey) (batch : List BankTrans)
    (bcv : List BankRow) (dupSheet : List DupRow) :
    List BankRow × List DupRow × Nat :=
  let r := bankProcessBatch existing batch
  (bcv ++ r.1.map bankTransToRow, dupSheet, r.2)

/-! ## Concrete instances used by witnesses and counterexamples -/

/-- A card payment as the account pipeline normalizes it
(completed "2025-11-13 14:07:59", description "Migros Lausanne",
amount "-42"). -/
def txMigros : Trans := ⟨⟨2025, 11, 13, 14, 7, 59⟩, "Migros".data, 42, "Food".data⟩

/-- A ledger row carrying `txMigros`'s key in the key's own date
format. -/
def rowMigrosISO : RowA :=
  ⟨Cell.text "2025-11-13".data, Cell.text "Migros".data, Cell.num 42⟩

/-- A transaction on Jan 6 with its own key. -/
def txNewer : Trans := ⟨⟨2025, 1, 6, 0, 0, 0⟩, "Z".data, 5, []⟩

/-- A Jan 5 14:00 transaction; same key as `txDupB` (the key drops the
time of day) but a different datetime. -/
def txDupA : Trans := ⟨⟨2025, 1, 5, 14, 0, 0⟩, "K".data, 7, []⟩

/-- A Jan 5 09:00 transaction with the same key as `txDupA`. -/
def txDupB : Trans := ⟨⟨2025, 1, 5, 9, 0, 0⟩, "K".data, 7, []⟩

/-- A bank transaction used as a duplicate candidate. -/
def bankDup : BankTrans := ⟨⟨2025, 11, 13, 0, 0, 0⟩, "Zzz".data, 30, 0, [], []⟩

/-- A bank input row carrying both a debit and a credit. -/
def rowBothAmounts : BankRow :=
  ⟨Cell.text "13.11.2025".data, Cell.text "Zzz".data, Cell.num 30, Cell.num 20⟩

/-- A persisted ledger row whose amount cell is the number zero. -/
def rowZeroAmount : RowA :=
  ⟨Cell.text "2025-11-13".data, Cell.text "X".data, Cell.num 0⟩

/-- A zero-amount candidate matching `rowZeroAmount` field for field. -/
def txZeroAmount : Trans := ⟨⟨2025, 11, 13, 0, 0, 0⟩, "X".data, 0, []⟩

/-- Column A values of a reference "2025" sheet. -/
def wmCells : List Cell :=
  [Cell.text "13.11.2025".data, Cell.empty, Cell.text "xx".data,
   Cell.text "10.11.2025".data]

/-- Two bank input rows, one after and one before the watermark. -/
def wmRows : List BankRow :=
  [⟨Cell.text "14.11.2025".data, Cell.text "Opq".data, Cell.num 30, Cell.empty⟩,
   ⟨Cell.text "10.11.2025".data, Cell.text "Opq".data, Cell.num 5, Cell.empty⟩]

/-! ## Order lemmas for datetime comparison -/

theorem lexLt_irrefl : ∀ l : List Nat, lexLt l l = false := by
  intro l
  induction l with
  | nil => rfl
  | cons x xs ih => simp [lexLt, ih]

theorem lexLt_trans : ∀ {a b c : List Nat},
    lexLt a b = true → lexLt b c = true → lexLt a c = true := by
  intro a
  induction a with
  | nil =>
    intro b c h1 h2
    cases b with
    | nil => simp [lexLt] at h1
    | cons y ys =>
      cases c with
      | nil => simp [lexLt] at h2
      | cons z zs => simp [lexLt]
  | cons x xs ih =>
    intro b c h1 h2
    cases b with
    | nil => simp [lexLt] at h1
    | cons y ys =>
      cases c with
      | nil => simp [lexLt] at h2
      | cons z zs =>
        simp only [lexLt] at h1 h2 ⊢
        by_cases hxy : x < y
        · by_cases hyz : y < z
          · simp [show x < z by omega]
          · by_cases hzy : z < y
            · simp [hyz, hzy] at h2
            · simp [show x < z by omega]
        · by_cases hyx : y < x
          · simp [hxy, hyx] at h1
          · by_cases hyz : y < z
            · simp [show x < z by omega]
            · by_cases hzy : z < y
              · simp [hyz, hzy] at h2
              · simp [hxy, hyx] at h1
                simp [hyz, hzy] at h2
                simp [show ¬ x < z by omega, show ¬ z < x by omega]
                exact ih h1 h2

theorem lexLt_asymm {a b : List Nat} (h : lexLt a b = true) : lexLt b a = false := by
  cases hba : lexLt b a
  · rfl
  · have := lexLt_trans h hba
    rw [lexLt_irrefl] at this
    exact absurd this (by simp)

theorem lexLt_eq_of_not_lt : ∀ {a b : List Nat},
    lexLt a b = false → lexLt b a = false → a = b := by
  intro a
  induction a with
  | nil =>
    intro b h1 _
    cases b with
    | nil => rfl
    | cons y ys => simp [lexLt] at h1
  | cons x xs ih =>
    intro b h1 h2
    cases b with
    | nil => simp [lexLt] at h2
    | cons y ys =>
      by_cases hxy : x < y
      · simp [lexLt, hxy] at h1
      · by_cases hyx : y < x
        · simp [lexLt, hyx] at h2
        · have hx : x = y := by omega
          have e1 : lexLt xs ys = false := by simpa [lexLt, hxy, hyx] using h1
          have e2 : lexLt ys xs = false := by simpa [lexLt, hxy, hyx] using h2
          rw [hx, ih e1 e2]

theorem DT.toL_inj {a b : DT} (h : a.toL = b.toL) : a = b := by
  cases a
  cases b
  simp only [DT.toL, List.cons.injEq, and_true] at h
  simp only [DT.mk.injEq]
  exact ⟨h.1, h.2.1, h.2.2.1, h.2.2.2.1, h.2.2.2.2.1, h.2.2.2.2.2⟩

theorem dtLeB_refl (a : DT) : dtLeB a a = true := by
  simp [dtLeB, dtLtB, lexLt_irrefl]

theorem dtLeB_of_dtLtB {a b : DT} (h : dtLtB a b = true) : dtLeB a b = true := by
  simp only [dtLeB, dtLtB] at *
  simp [lexLt_asymm h]

theorem dtLeB_antisymm {a b : DT} (h1 : dtLeB a b = true) (h2 : dtLeB b a = true) :
    a = b := by
  simp only [dtLeB, dtLtB, Bool.not_eq_true'] at h1 h2
  exact DT.toL_inj (lexLt_eq_of_not_lt h2 h1)

theorem dtLeB_trans {a b c : DT} (h1 : dtLeB a b = true) (h2 : dtLeB b c = true) :
    dtLeB a c = true := by
  simp only [dtLeB, dtLtB, Bool.not_eq_true'] at h1 h2 ⊢
  cases h3 : lexLt c.toL a.toL
  · rfl
  · exfalso
    cases hbc : lexLt b.toL c.toL
    · have hbceq : b.toL = c.toL := lexLt_eq_of_not_lt hbc h2
      rw [← hbceq] at h3
      rw [h1] at h3
      exact Bool.noConfusion h3
    · have h4 := lexLt_trans hbc h3
      rw [h1] at h4
      exact Bool.noConfusion h4

theorem dtLeB_not_lt {a b : DT} (h : dtLtB a b = false) : dtLeB b a = true := by
  simp [dtLeB, h]

/-! ## `minD` lemmas -/

theorem minStep_le_left (m y : DT) : dtLeB (minStep m y) m = true := by
  unfold minStep
  split
  · exact dtLeB_of_dtLtB (by assumption)
  · exact dtLeB_refl m

theorem minStep_le_right (m y : DT) : dtLeB (minStep m y) y = true := by
  unfold minStep
  split
  · exact dtLeB_refl y
  · exact dtLeB_not_lt (by simp_all)

theorem minStep_cases (m y : DT) : minStep m y = m ∨ minStep m y = y := by
  unfold minStep
  split
  · exact Or.inr rfl
  · exact Or.inl rfl

theorem foldl_minStep_spec (xs : List DT) : ∀ a : DT,
    (xs.foldl minStep a = a ∨ xs.foldl minStep a ∈ xs) ∧
    dtLeB (xs.foldl minStep a) a = true ∧
    ∀ y ∈ xs, dtLeB (xs.foldl minStep a) y = true := by
  induction xs with
  | nil => intro a; simp [dtLeB_refl]
  | cons x xs ih =>
    intro a
    simp only [List.foldl_cons, List.mem_cons]
    obtain ⟨hmem, hle, hall⟩ := ih (minStep a x)
    refine ⟨?_, ?_, ?_⟩
    · rcases hmem with h | h
      · rcases minStep_cases a x with h2 | h2
        · exact Or.inl (h.trans h2)
        · exact Or.inr (Or.inl (h.trans h2))
      · exact Or.inr (Or.inr h)
    · exact dtLeB_trans hle (minStep_le_left a x)
    · intro y hy
      rcases hy with rfl | hy
      · exact dtLeB_trans hle (minStep_le_right a y)
      · exact hall y hy

theorem minD_eq_none {l : List DT} : minD l = none ↔ l = [] := by
  cases l <;> simp [minD]

theorem minD_spec {l : List DT} {m : DT} (h : minD l = some m) :
    m ∈ l ∧ ∀ x ∈ l, dtLeB m x = true := by
  cases l with
  | nil => simp [minD] at h
  | cons x xs =>
    simp only [minD, Option.some.injEq] at h
    obtain ⟨hmem, hle, hall⟩ := foldl_minStep_spec xs x
    rw [h] at hmem hle hall
    constructor
    · rcases hmem with h2 | h2
      · rw [h2]; exact List.mem_cons_self x xs
      · exact List.mem_cons_of_mem x h2
    · intro y hy
      cases hy with
      | head => exact hle
      | tail _ hy2 => exact hall y hy2

theorem minD_congr {l₁ l₂ : List DT} (h₁ : ∀ x ∈ l₁, x ∈ l₂) (h₂ : ∀ x ∈ l₂, x ∈ l₁) :
    minD l₁ = minD l₂ := by
  cases e₁ : minD l₁ with
  | none =>
    rw [minD_eq_none] at e₁
    cases e₂ : minD l₂ with
    | none => rfl
    | some m₂ =>
      obtain ⟨hm, _⟩ := minD_spec e₂
      exact absurd (h₂ m₂ hm) (by simp [e₁])
  | some m₁ =>
    cases e₂ : minD l₂ with
    | none =>
      rw [minD_eq_none] at e₂
      obtain ⟨hm, _⟩ := minD_spec e₁
      exact absurd (h₁ m₁ hm) (by simp [e₂])
    | some m₂ =>
      obtain ⟨hm₁, hle₁⟩ := minD_spec e₁
      obtain ⟨hm₂, hle₂⟩ := minD_spec e₂
      rw [dtLeB_antisymm (hle₁ m₂ (h₂ m₂ hm₂)) (hle₂ m₁ (h₁ m₁ hm₁))]

/-! ## Writer-loop lemmas -/

theorem processBatch_cons_dup {ex : List Key} {t : Trans} {ts : List Trans}
    (h : candKey t ∈ ex) :
    processBatch ex (t :: ts) = ((processBatch ex ts).1, t :: (processBatch ex ts).2) := by
  simp [processBatch, h]

theorem processBatch_cons_new {ex : List Key} {t : Trans} {ts : List Trans}
    (h : candKey t ∉ ex) :
    processBatch ex (t :: ts) =
      (t :: (processBatch (candKey t :: ex) ts).1,
       (processBatch (candKey t :: ex) ts).2) := by
  simp [processBatch, h]

/-- Every appended transaction came from the batch. -/
theorem pb_app_mem : ∀ (ex : List Key) (b : List Trans) (t : Trans),
    t ∈ (processBatch ex b).1 → t ∈ b := by
  intro ex b
  induction b generalizing ex with
  | nil => intro t h; simp [processBatch] at h
  | cons v vs ih =>
    intro t h
    by_cases hv : candKey v ∈ ex
    · rw [processBatch_cons_dup hv] at h
      exact List.mem_cons_of_mem v (ih ex t h)
    · rw [processBatch_cons_new hv] at h
      cases h with
      | head => exact List.mem_cons_self v vs
      | tail _ h2 => exact List.mem_cons_of_mem v (ih _ t h2)

/-- Every routed duplicate came from the batch. -/
theorem pb_dup_mem : ∀ (ex : List Key) (b : List Trans) (t : Trans),
    t ∈ (processBatch ex b).2 → t ∈ b := by
  intro ex b
  induction b generalizing ex with
  | nil => intro t h; simp [processBatch] at h
  | cons v vs ih =>
    intro t h
    by_cases hv : candKey v ∈ ex
    · rw [processBatch_cons_dup hv] at h
      cases h with
      | head => exact List.mem_cons_self v vs
      | tail _ h2 => exact List.mem_cons_of_mem v (ih ex t h2)
    · rw [processBatch_cons_new hv] at h
      exact List.mem_cons_of_mem v (ih _ t h)

/-- An appended transaction's key was not in the starting set. -/
theorem pb_app_key_not_mem : ∀ (ex : List Key) (b : List Trans) (t : Trans),
    t ∈ (processBatch ex b).1 → candKey t ∉ ex := by
  intro ex b
  induction b generalizing ex with
  | nil => intro t h; simp [processBatch] at h
  | cons v vs ih =>
    intro t h
    by_cases hv : candKey v ∈ ex
    · rw [processBatch_cons_dup hv] at h
      exact ih ex t h
    · rw [processBatch_cons_new hv] at h
      cases h with
      | head => exact hv
      | tail _ h2 =>
        intro hmem
        exact ih _ t h2 (List.mem_cons_of_mem _ hmem)

/-- No two appended rows share a deduplication key. -/
theorem pb_pairwise : ∀ (ex : List Key) (b : List Trans),
    List.Pairwise (fun a c => candKey a ≠ candKey c) (processBatch ex b).1 := by
  intro ex b
  induction b generalizing ex with
  | nil => simp [processBatch]
  | cons v vs ih =>
    by_cases hv : candKey v ∈ ex
    · rw [processBatch_cons_dup hv]
      exact ih ex
    · rw [processBatch_cons_new hv]
      refine List.Pairwise.cons ?_ (ih _)
      intro c hc
      have := pb_app_key_not_mem _ _ _ hc
      intro hkey
      exact this (hkey ▸ List.mem_cons_self _ _)

/-- A batch element whose key is already in the set is routed to the
duplicates list. -/
theorem pb_dup_of_mem : ∀ (ex : List Key) (b : List Trans) (t : Trans),
    t ∈ b → candKey t ∈ ex → t ∈ (processBatch ex b).2 := by
  intro ex b
  induction b generalizing ex with
  | nil => intro t h; simp at h
  | cons v vs ih =>
    intro t ht hkey
    by_cases hv : candKey v ∈ ex
    · rw [processBatch_cons_dup hv]
      rcases List.mem_cons.mp ht with rfl | h2
      · exact List.mem_cons_self t _
      · exact List.mem_cons_of_mem v (ih ex t h2 hkey)
    · rcases List.mem_cons.mp ht with rfl | h2
      · exact absurd hkey hv
      · rw [processBatch_cons_new hv]
        exact ih _ t h2 (List.mem_cons_of_mem _ hkey)

/-- The first batch element carrying a fresh key is appended. -/
theorem pb_first_fresh : ∀ (ex : List Key) (l₁ : List Trans) (t : Trans) (l₂ : List Trans),
    candKey t ∉ ex → (∀ u ∈ l₁, candKey u ≠ candKey t) →
    t ∈ (processBatch ex (l₁ ++ t :: l₂)).1 := by
  intro ex l₁
  induction l₁ generalizing ex with
  | nil =>
    intro t l₂ hfresh _
    rw [List.nil_append, processBatch_cons_new hfresh]
    exact List.mem_cons_self t _
  | cons u l₁ ih =>
    intro t l₂ hfresh hearlier
    rw [List.cons_append]
    by_cases hu : candKey u ∈ ex
    · rw [processBatch_cons_dup hu]
      exact ih ex t l₂ hfresh (fun w hw => hearlier w (List.mem_cons_of_mem u hw))
    · rw [processBatch_cons_new hu]
      by_cases hut : u = t
      · exact hut ▸ List.mem_cons_self u _
      · refine List.mem_cons_of_mem u (ih _ t l₂ ?_ ?_)
        · intro hmem
          rcases List.mem_cons.mp hmem with h3 | h3
          · exact hearlier u (List.mem_cons_self u l₁) h3.symm
          · exact hfresh h3
        · exact fun w hw => hearlier w (List.mem_cons_of_mem u hw)

/-- A batch element preceded by a same-key element is routed to the
duplicates list. -/
theorem pb_later_dup : ∀ (ex : List Key) (l₁ : List Trans) (t : Trans) (l₂ : List Trans),
    (∃ u ∈ l₁, candKey u = candKey t) →
    t ∈ (processBatch ex (l₁ ++ t :: l₂)).2 := by
  intro ex l₁
  induction l₁ generalizing ex with
  | nil =>
    intro t l₂ h
    simp at h
  | cons u l₁ ih =>
    intro t l₂ h
    rw [List.cons_append]
    obtain ⟨w, hw, hkeyw⟩ := h
    by_cases hu : candKey u ∈ ex
    · rw [processBatch_cons_dup hu]
      refine List.mem_cons_of_mem u ?_
      rcases List.mem_cons.mp hw with rfl | h2
      · exact pb_dup_of_mem ex _ t (by simp) (hkeyw ▸ hu)
      · exact ih ex t l₂ ⟨w, h2, hkeyw⟩
    · rw [processBatch_cons_new hu]
      rcases List.mem_cons.mp hw with rfl | h2
      · exact pb_dup_of_mem _ _ t (by simp)
          (by rw [← hkeyw]; exact List.mem_cons_self _ _)
      · exact ih _ t l₂ ⟨w, h2, hkeyw⟩

/-- Every batch element with a fresh key has a same-key representative
among the appended rows. -/
theorem pb_exists_rep : ∀ (ex : List Key) (b : List Trans) (t : Trans),
    t ∈ b → candKey t ∉ ex →
    ∃ u ∈ (processBatch ex b).1, candKey u = candKey t := by
  intro ex b
  induction b generalizing ex with
  | nil => intro t h; simp at h
  | cons v vs ih =>
    intro t ht hfresh
    by_cases hv : candKey v ∈ ex
    · rw [processBatch_cons_dup hv]
      cases ht with
      | head => exact absurd hv hfresh
      | tail _ h2 => exact ih ex t h2 hfresh
    · rw [processBatch_cons_new hv]
      by_cases hkey : candKey v = candKey t
      · exact ⟨v, List.mem_cons_self v _, hkey⟩
      · cases ht with
        | head => exact absurd rfl hkey
        | tail _ h2 =>
          have hfresh' : candKey t ∉ candKey v :: ex := by
            rw [List.mem_cons]
            rintro (h3 | h3)
            · exact hkey h3.symm
            · exact hfresh h3
          obtain ⟨u, hu, hku⟩ := ih (candKey v :: ex) t h2 hfresh'
          exact ⟨u, List.mem_cons_of_mem v hu, hku⟩

/-! ## Digit, field, split and strip lemmas for `parse_date` -/

theorem digit_char_spec : ∀ j : Nat, j < 10 →
    (Char.ofNat (48 + j)).toNat = 48 + j ∧ (Char.ofNat (48 + j)).isDigit = true := by
  intro j h
  interval_cases j <;> exact ⟨by decide, by decide⟩

theorem digitC_toNat (k : Nat) : (digitC k).toNat = 48 + k % 10 :=
  (digit_char_spec (k % 10) (Nat.mod_lt k (by omega))).1

theorem digitC_isDigit (k : Nat) : (digitC k).isDigit = true :=
  (digit_char_spec (k % 10) (Nat.mod_lt k (by omega))).2

theorem digitC_ne {k : Nat} {c : Char} (h : ¬(48 ≤ c.toNat ∧ c.toNat ≤ 57)) :
    digitC k ≠ c := by
  intro he
  have ht := congrArg Char.toNat he
  rw [digitC_toNat] at ht
  have hk : k % 10 < 10 := Nat.mod_lt k (by omega)
  omega

theorem allDigits_pad2 (n : Nat) : allDigits (pad2 n) = true := by
  simp [allDigits, pad2, digitC_isDigit]

theorem allDigits_pad4 (n : Nat) : allDigits (pad4 n) = true := by
  simp [allDigits, pad4, digitC_isDigit]

theorem valOfDigits_pad2 {n : Nat} (h : n < 100) : valOfDigits (pad2 n) = n := by
  simp [valOfDigits, pad2, digitVal, digitC_toNat]
  omega

theorem valOfDigits_pad4 {n : Nat} (h : n < 10000) : valOfDigits (pad4 n) = n := by
  simp [valOfDigits, pad4, digitVal, digitC_toNat]
  omega

theorem parseField_pad2 {lo hi n : Nat} (h1 : lo ≤ n) (h2 : n ≤ hi) (h3 : n < 100) :
    parseField lo hi (pad2 n) = some n := by
  unfold parseField
  rw [valOfDigits_pad2 h3, if_pos ⟨Or.inr rfl, allDigits_pad2 n, h1, h2⟩]

theorem parseField_pad4 (lo hi y : Nat) : parseField lo hi (pad4 y) = none := by
  unfold parseField
  rw [if_neg]
  rintro ⟨h1, -⟩
  rcases h1 with h1 | h1 <;> simp [pad4] at h1

theorem parseField_big {lo hi n : Nat} (h : hi < n) (h3 : n < 100) :
    parseField lo hi (pad2 n) = none := by
  unfold parseField
  rw [if_neg]
  rintro ⟨-, -, -, h4⟩
  rw [valOfDigits_pad2 h3] at h4
  omega

theorem parseYearF_pad4 {y : Nat} (h : y < 10000) : parseYearF (pad4 y) = some y := by
  unfold parseYearF
  rw [valOfDigits_pad4 h, if_pos ⟨rfl, allDigits_pad4 y⟩]

theorem parseYearF_pad2 (n : Nat) : parseYearF (pad2 n) = none := by
  unfold parseYearF
  rw [if_neg]
  rintro ⟨h1, -⟩
  simp [pad2] at h1

theorem splitOnC_cons (sep c : Char) (cs : List Char) :
    splitOnC sep (c :: cs) =
      match splitOnC sep cs with
      | [] => [[]]
      | h :: t => if c = sep then [] :: h :: t else (c :: h) :: t := rfl

theorem splitOnC_ne_nil (sep : Char) : ∀ s : List Char, splitOnC sep s ≠ [] := by
  intro s
  cases s with
  | nil => simp [splitOnC]
  | cons c cs =>
    rw [splitOnC_cons]
    cases splitOnC sep cs with
    | nil => simp
    | cons h t => split <;> (try split) <;> simp

theorem splitOnC_no_sep (sep : Char) : ∀ s : List Char, (∀ c ∈ s, c ≠ sep) →
    splitOnC sep s = [s] := by
  intro s
  induction s with
  | nil => intro _; rfl
  | cons c cs ih =>
    intro h
    rw [splitOnC_cons, ih (fun x hx => h x (List.mem_cons_of_mem c hx))]
    simp [h c (List.mem_cons_self c cs)]

theorem splitOnC_append (sep : Char) : ∀ (a rest : List Char), (∀ c ∈ a, c ≠ sep) →
    splitOnC sep (a ++ sep :: rest) = a :: splitOnC sep rest := by
  intro a
  induction a with
  | nil =>
    intro rest _
    rw [List.nil_append, splitOnC_cons]
    obtain ⟨h0, t0, e⟩ : ∃ h0 t0, splitOnC sep rest = h0 :: t0 := by
      cases e : splitOnC sep rest with
      | nil => exact absurd e (splitOnC_ne_nil sep rest)
      | cons h0 t0 => exact ⟨h0, t0, rfl⟩
    rw [e]
    simp
  | cons x a ih =>
    intro rest h
    rw [List.cons_append, splitOnC_cons,
        ih rest (fun c hc => h c (List.mem_cons_of_mem x hc))]
    simp [h x (List.mem_cons_self x a)]

theorem dropWhile_all_false {p : Char → Bool} : ∀ s : List Char,
    (∀ c ∈ s, p c = false) → s.dropWhile p = s := by
  intro s h
  cases s with
  | nil => rfl
  | cons c cs =>
    rw [List.dropWhile_cons, if_neg (by simp [h c (List.mem_cons_self c cs)])]

theorem stripChars_id {s : List Char} (h : ∀ c ∈ s, isSpaceC c = false) :
    stripChars s = s := by
  unfold stripChars
  rw [dropWhile_all_false s h,
      dropWhile_all_false s.reverse (fun c hc => h c (List.mem_reverse.mp hc)),
      List.reverse_reverse]

/-! ## Rendered date strings: character classification -/

theorem mem_pad2 {c : Char} {n : Nat} (h : c ∈ pad2 n) : ∃ k, c = digitC k := by
  rcases List.mem_cons.mp h with rfl | h
  · exact ⟨n / 10, rfl⟩
  · rcases List.mem_cons.mp h with rfl | h
    · exact ⟨n, rfl⟩
    · simp at h

theorem mem_pad4 {c : Char} {n : Nat} (h : c ∈ pad4 n) : ∃ k, c = digitC k := by
  rcases List.mem_cons.mp h with rfl | h
  · exact ⟨n / 1000, rfl⟩
  · rcases List.mem_cons.mp h with rfl | h
    · exact ⟨n / 100, rfl⟩
    · rcases List.mem_cons.mp h with rfl | h
      · exact ⟨n / 10, rfl⟩
      · rcases List.mem_cons.mp h with rfl | h
        · exact ⟨n, rfl⟩
        · simp at h

theorem pad2_ne_sep {n : Nat} {sep : Char}
    (hsep : ¬(48 ≤ sep.toNat ∧ sep.toNat ≤ 57)) : ∀ c ∈ pad2 n, c ≠ sep := by
  intro c hc
  obtain ⟨k, rfl⟩ := mem_pad2 hc
  exact digitC_ne hsep

theorem pad4_ne_sep {n : Nat} {sep : Char}
    (hsep : ¬(48 ≤ sep.toNat ∧ sep.toNat ≤ 57)) : ∀ c ∈ pad4 n, c ≠ sep := by
  intro c hc
  obtain ⟨k, rfl⟩ := mem_pad4 hc
  exact digitC_ne hsep

theorem renderDMY_mem {sep c : Char} {x : DT} (hc : c ∈ renderDMY sep x) :
    (∃ k, c = digitC k) ∨ c = sep := by
  unfold renderDMY at hc
  rcases List.mem_append.mp hc with h | h
  · exact Or.inl (mem_pad2 h)
  · rcases List.mem_cons.mp h with rfl | h
    · exact Or.inr rfl
    · rcases List.mem_append.mp h with h | h
      · exact Or.inl (mem_pad2 h)
      · rcases List.mem_cons.mp h with rfl | h
        · exact Or.inr rfl
        · exact Or.inl (mem_pad4 h)

theorem renderYMD_mem {c : Char} {x : DT} (hc : c ∈ renderYMD x) :
    (∃ k, c = digitC k) ∨ c = '-' := by
  unfold renderYMD at hc
  rcases List.mem_append.mp hc with h | h
  · exact Or.inl (mem_pad4 h)
  · rcases List.mem_cons.mp h with rfl | h
    · exact Or.inr rfl
    · rcases List.mem_append.mp h with h | h
      · exact Or.inl (mem_pad2 h)
      · rcases List.mem_cons.mp h with rfl | h
        · exact Or.inr rfl
        · exact Or.inl (mem_pad2 h)

theorem renderMDY_mem {c : Char} {x : DT} (hc : c ∈ renderMDY x) :
    (∃ k, c = digitC k) ∨ c = '/' := by
  unfold renderMDY at hc
  rcases List.mem_append.mp hc with h | h
  · exact Or.inl (mem_pad2 h)
  · rcases List.mem_cons.mp h with rfl | h
    · exact Or.inr rfl
    · rcases List.mem_append.mp h with h | h
      · exact Or.inl (mem_pad2 h)
      · rcases List.mem_cons.mp h with rfl | h
        · exact Or.inr rfl
        · exact Or.inl (mem_pad4 h)

theorem renderDMY_ne {sep sep' : Char} {x : DT}
    (hd : ¬(48 ≤ sep'.toNat ∧ sep'.toNat ≤ 57)) (hne : sep ≠ sep') :
    ∀ c ∈ renderDMY sep x, c ≠ sep' := by
  intro c hc
  rcases renderDMY_mem hc with ⟨k, rfl⟩ | rfl
  · exact digitC_ne hd
  · exact hne

theorem renderYMD_ne {sep' : Char} {x : DT}
    (hd : ¬(48 ≤ sep'.toNat ∧ sep'.toNat ≤ 57)) (hne : ('-' : Char) ≠ sep') :
    ∀ c ∈ renderYMD x, c ≠ sep' := by
  intro c hc
  rcases renderYMD_mem hc with ⟨k, rfl⟩ | rfl
  · exact digitC_ne hd
  · exact hne

theorem renderMDY_ne {sep' : Char} {x : DT}
    (hd : ¬(48 ≤ sep'.toNat ∧ sep'.toNat ≤ 57)) (hne : ('/' : Char) ≠ sep') :
    ∀ c ∈ renderMDY x, c ≠ sep' := by
  intro c hc
  rcases renderMDY_mem hc with ⟨k, rfl⟩ | rfl
  · exact digitC_ne hd
  · exact hne

theorem isSpaceC_digitC (k : Nat) : isSpaceC (digitC k) = false := by
  have h1 : digitC k ≠ ' ' := digitC_ne (by decide)
  have h2 : digitC k ≠ '\t' := digitC_ne (by decide)
  have h3 : digitC k ≠ '\n' := digitC_ne (by decide)
  have h4 : digitC k ≠ '\r' := digitC_ne (by decide)
  simp [isSpaceC, h1, h2, h3, h4]

theorem strip_renderDMY {sep : Char} {x : DT} (hsep : isSpaceC sep = false) :
    stripChars (renderDMY sep x) = renderDMY sep x := by
  apply stripChars_id
  intro c hc
  rcases renderDMY_mem hc with ⟨k, rfl⟩ | rfl
  · exact isSpaceC_digitC k
  · exact hsep

theorem strip_renderYMD {x : DT} :
    stripChars (renderYMD x) = renderYMD x := by
  apply stripChars_id
  intro c hc
  rcases renderYMD_mem hc with ⟨k, rfl⟩ | rfl
  · exact isSpaceC_digitC k
  · decide

theorem strip_renderMDY {x : DT} :
    stripChars (renderMDY x) = renderMDY x := by
  apply stripChars_id
  intro c hc
  rcases renderMDY_mem hc with ⟨k, rfl⟩ | rfl
  · exact isSpaceC_digitC k
  · decide

theorem split_renderDMY {sep : Char}
    (hsep : ¬(48 ≤ sep.toNat ∧ sep.toNat ≤ 57)) (x : DT) :
    splitOnC sep (renderDMY sep x) = [pad2 x.day, pad2 x.month, pad4 x.year] := by
  unfold renderDMY
  rw [splitOnC_append sep _ _ (pad2_ne_sep hsep),
      splitOnC_append sep _ _ (pad2_ne_sep hsep),
      splitOnC_no_sep sep _ (pad4_ne_sep hsep)]

theorem split_renderYMD (x : DT) :
    splitOnC '-' (renderYMD x) = [pad4 x.year, pad2 x.month, pad2 x.day] := by
  unfold renderYMD
  rw [splitOnC_append '-' _ _ (pad4_ne_sep (by decide)),
      splitOnC_append '-' _ _ (pad2_ne_sep (by decide)),
      splitOnC_no_sep '-' _ (pad2_ne_sep (by decide))]

theorem split_renderMDY (x : DT) :
    splitOnC '/' (renderMDY x) = [pad2 x.month, pad2 x.day, pad4 x.year] := by
  unfold renderMDY
  rw [splitOnC_append '/' _ _ (pad2_ne_sep (by decide)),
      splitOnC_append '/' _ _ (pad2_ne_sep (by decide)),
      splitOnC_no_sep '/' _ (pad4_ne_sep (by decide))]

theorem daysInMonth_le (y m : Nat) : daysInMonth y m ≤ 31 := by
  unfold daysInMonth
  split_ifs <;> omega

theorem validYMD_true {y m d : Nat} (hy1 : 1 ≤ y) (hy2 : y ≤ 9999) (hm1 : 1 ≤ m)
    (hm2 : m ≤ 12) (hd1 : 1 ≤ d) (hd2 : d ≤ daysInMonth y m) :
    validYMD y m d = true := by
  simp only [validYMD, Bool.and_eq_true, decide_eq_true_eq]
  exact ⟨⟨⟨⟨⟨hy1, hy2⟩, hm1⟩, hm2⟩, hd1⟩, hd2⟩

theorem mkDT_some {y m d : Nat} (h : validYMD y m d = true) :
    mkDT y m d = some ⟨y, m, d, 0, 0, 0⟩ := by
  unfold mkDT
  rw [if_pos h]

/-! ## `parse_date` on rendered dates -/

theorem parseDMY_single {sep : Char} {s : List Char} (h : splitOnC sep s = [s]) :
    parseDMY sep s = none := by
  unfold parseDMY
  simp only [h]

theorem parseYMD_single {sep : Char} {s : List Char} (h : splitOnC sep s = [s]) :
    parseYMD sep s = none := by
  unfold parseYMD
  simp only [h]

theorem parseMDY_single {sep : Char} {s : List Char} (h : splitOnC sep s = [s]) :
    parseMDY sep s = none := by
  unfold parseMDY
  simp only [h]

theorem parseDMY_render {sep : Char} (hsep : ¬(48 ≤ sep.toNat ∧ sep.toNat ≤ 57))
    {y m d : Nat} (hy1 : 1000 ≤ y) (hy2 : y ≤ 9999) (hm1 : 1 ≤ m) (hm2 : m ≤ 12)
    (hd1 : 1 ≤ d) (hd2 : d ≤ daysInMonth y m) :
    parseDMY sep (renderDMY sep ⟨y, m, d, 0, 0, 0⟩) = some ⟨y, m, d, 0, 0, 0⟩ := by
  have hd31 : d ≤ 31 := le_trans hd2 (daysInMonth_le y m)
  unfold parseDMY
  simp only [split_renderDMY hsep,
    parseField_pad2 hd1 hd31 (by omega), parseField_pad2 hm1 hm2 (by omega),
    parseYearF_pad4 (show y < 10000 by omega)]
  exact mkDT_some (validYMD_true (by omega) hy2 hm1 hm2 hd1 hd2)

theorem parseYMD_render {y m d : Nat} (hy1 : 1000 ≤ y) (hy2 : y ≤ 9999)
    (hm1 : 1 ≤ m) (hm2 : m ≤ 12) (hd1 : 1 ≤ d) (hd2 : d ≤ daysInMonth y m) :
    parseYMD '-' (renderYMD ⟨y, m, d, 0, 0, 0⟩) = some ⟨y, m, d, 0, 0, 0⟩ := by
  have hd31 : d ≤ 31 := le_trans hd2 (daysInMonth_le y m)
  unfold parseYMD
  simp only [split_renderYMD,
    parseField_pad2 hd1 hd31 (by omega), parseField_pad2 hm1 hm2 (by omega),
    parseYearF_pad4 (show y < 10000 by omega)]
  exact mkDT_some (validYMD_true (by omega) hy2 hm1 hm2 hd1 hd2)

theorem parseMDY_render {y m d : Nat} (hy1 : 1000 ≤ y) (hy2 : y ≤ 9999)
    (hm1 : 1 ≤ m) (hm2 : m ≤ 12) (hd1 : 1 ≤ d) (hd2 : d ≤ daysInMonth y m) :
    parseMDY '/' (renderMDY ⟨y, m, d, 0, 0, 0⟩) = some ⟨y, m, d, 0, 0, 0⟩ := by
  have hd31 : d ≤ 31 := le_trans hd2 (daysInMonth_le y m)
  unfold parseMDY
  simp only [split_renderMDY,
    parseField_pad2 hm1 hm2 (by omega), parseField_pad2 hd1 hd31 (by omega),
    parseYearF_pad4 (show y < 10000 by omega)]
  exact mkDT_some (validYMD_true (by omega) hy2 hm1 hm2 hd1 hd2)

theorem parseDMY_renderYMD_none (x : DT) :
    parseDMY '-' (renderYMD x) = none := by
  unfold parseDMY
  simp only [split_renderYMD, parseField_pad4]

theorem parseDMY_renderMDY_none {y m d : Nat} (hd12 : 12 < d) (hd99 : d < 100)
    (hm1 : 1 ≤ m) (hm2 : m ≤ 12) :
    parseDMY '/' (renderMDY ⟨y, m, d, 0, 0, 0⟩) = none := by
  unfold parseDMY
  simp only [split_renderMDY,
    parseField_pad2 hm1 (show m ≤ 31 by omega) (show m < 100 by omega),
    parseField_big hd12 hd99]

theorem parseDMY_renderMDY_eq {y m : Nat} (hy1 : 1000 ≤ y) (hy2 : y ≤ 9999)
    (hm1 : 1 ≤ m) (hm2 : m ≤ 12) (hdm : m ≤ daysInMonth y m) :
    parseDMY '/' (renderMDY ⟨y, m, m, 0, 0, 0⟩) = some ⟨y, m, m, 0, 0, 0⟩ := by
  unfold parseDMY
  simp only [split_renderMDY,
    parseField_pad2 hm1 (show m ≤ 31 by omega) (show m < 100 by omega),
    parseField_pad2 hm1 hm2 (show m < 100 by omega),
    parseYearF_pad4 (show y < 10000 by omega)]
  exact mkDT_some (validYMD_true (by omega) hy2 hm1 hm2 hm1 hdm)

theorem parse_date_dmy_dash {y m d : Nat} (hy1 : 1000 ≤ y) (hy2 : y ≤ 9999)
    (hm1 : 1 ≤ m) (hm2 : m ≤ 12) (hd1 : 1 ≤ d) (hd2 : d ≤ daysInMonth y m) :
    parse_date (renderDMY '-' ⟨y, m, d, 0, 0, 0⟩) = some ⟨y, m, d, 0, 0, 0⟩ := by
  unfold parse_date
  have hs : stripChars (renderDMY '-' (⟨y, m, d, 0, 0, 0⟩ : DT)) =
      renderDMY '-' ⟨y, m, d, 0, 0, 0⟩ := strip_renderDMY (by decide)
  have hp : parseDMY '-' (renderDMY '-' (⟨y, m, d, 0, 0, 0⟩ : DT)) =
      some ⟨y, m, d, 0, 0, 0⟩ := parseDMY_render (by decide) hy1 hy2 hm1 hm2 hd1 hd2
  simp only [hs, hp]

theorem parse_date_dmy_dot {y m d : Nat} (hy1 : 1000 ≤ y) (hy2 : y ≤ 9999)
    (hm1 : 1 ≤ m) (hm2 : m ≤ 12) (hd1 : 1 ≤ d) (hd2 : d ≤ daysInMonth y m) :
    parse_date (renderDMY '.' ⟨y, m, d, 0, 0, 0⟩) = some ⟨y, m, d, 0, 0, 0⟩ := by
  unfold parse_date
  have h1 : parseDMY '-' (renderDMY '.' (⟨y, m, d, 0, 0, 0⟩ : DT)) = none :=
    parseDMY_single (splitOnC_no_sep '-' _ (renderDMY_ne (by decide) (by decide)))
  have hs : stripChars (renderDMY '.' (⟨y, m, d, 0, 0, 0⟩ : DT)) =
      renderDMY '.' ⟨y, m, d, 0, 0, 0⟩ := strip_renderDMY (by decide)
  have hp : parseDMY '.' (renderDMY '.' (⟨y, m, d, 0, 0, 0⟩ : DT)) =
      some ⟨y, m, d, 0, 0, 0⟩ := parseDMY_render (by decide) hy1 hy2 hm1 hm2 hd1 hd2
  simp only [hs, h1, hp]

theorem parse_date_ymd {y m d : Nat} (hy1 : 1000 ≤ y) (hy2 : y ≤ 9999)
    (hm1 : 1 ≤ m) (hm2 : m ≤ 12) (hd1 : 1 ≤ d) (hd2 : d ≤ daysInMonth y m) :
    parse_date (renderYMD ⟨y, m, d, 0, 0, 0⟩) = some ⟨y, m, d, 0, 0, 0⟩ := by
  unfold parse_date
  have h2 : parseDMY '.' (renderYMD (⟨y, m, d, 0, 0, 0⟩ : DT)) = none :=
    parseDMY_single (splitOnC_no_sep '.' _ (renderYMD_ne (by decide) (by decide)))
  have hs : stripChars (renderYMD (⟨y, m, d, 0, 0, 0⟩ : DT)) =
      renderYMD ⟨y, m, d, 0, 0, 0⟩ := strip_renderYMD
  simp only [hs, parseDMY_renderYMD_none, h2,
    parseYMD_render hy1 hy2 hm1 hm2 hd1 hd2]

theorem parse_date_dmy_slash {y m d : Nat} (hy1 : 1000 ≤ y) (hy2 : y ≤ 9999)
    (hm1 : 1 ≤ m) (hm2 : m ≤ 12) (hd1 : 1 ≤ d) (hd2 : d ≤ daysInMonth y m) :
    parse_date (renderDMY '/' ⟨y, m, d, 0, 0, 0⟩) = some ⟨y, m, d, 0, 0, 0⟩ := by
  unfold parse_date
  have h1 : parseDMY '-' (renderDMY '/' (⟨y, m, d, 0, 0, 0⟩ : DT)) = none :=
    parseDMY_single (splitOnC_no_sep '-' _ (renderDMY_ne (by decide) (by decide)))
  have h2 : parseDMY '.' (renderDMY '/' (⟨y, m, d, 0, 0, 0⟩ : DT)) = none :=
    parseDMY_single (splitOnC_no_sep '.' _ (renderDMY_ne (by decide) (by decide)))
  have h3 : parseYMD '-' (renderDMY '/' (⟨y, m, d, 0, 0, 0⟩ : DT)) = none :=
    parseYMD_single (splitOnC_no_sep '-' _ (renderDMY_ne (by decide) (by decide)))
  have hs : stripChars (renderDMY '/' (⟨y, m, d, 0, 0, 0⟩ : DT)) =
      renderDMY '/' ⟨y, m, d, 0, 0, 0⟩ := strip_renderDMY (by decide)
  have hp : parseDMY '/' (renderDMY '/' (⟨y, m, d, 0, 0, 0⟩ : DT)) =
      some ⟨y, m, d, 0, 0, 0⟩ := parseDMY_render (by decide) hy1 hy2 hm1 hm2 hd1 hd2
  simp only [hs, h1, h2, h3, hp]

theorem parse_date_mdy {y m d : Nat} (hy1 : 1000 ≤ y) (hy2 : y ≤ 9999)
    (hm1 : 1 ≤ m) (hm2 : m ≤ 12) (hd1 : 1 ≤ d) (hd2 : d ≤ daysInMonth y m)
    (hcase : 12 < d ∨ d = m) :
    parse_date (renderMDY ⟨y, m, d, 0, 0, 0⟩) = some ⟨y, m, d, 0, 0, 0⟩ := by
  unfold parse_date
  have h1 : parseDMY '-' (renderMDY (⟨y, m, d, 0, 0, 0⟩ : DT)) = none :=
    parseDMY_single (splitOnC_no_sep '-' _ (renderMDY_ne (by decide) (by decide)))
  have h2 : parseDMY '.' (renderMDY (⟨y, m, d, 0, 0, 0⟩ : DT)) = none :=
    parseDMY_single (splitOnC_no_sep '.' _ (renderMDY_ne (by decide) (by decide)))
  have h3 : parseYMD '-' (renderMDY (⟨y, m, d, 0, 0, 0⟩ : DT)) = none :=
    parseYMD_single (splitOnC_no_sep '-' _ (renderMDY_ne (by decide) (by decide)))
  have hs : stripChars (renderMDY (⟨y, m, d, 0, 0, 0⟩ : DT)) =
      renderMDY ⟨y, m, d, 0, 0, 0⟩ := strip_renderMDY
  rcases hcase with hd12 | hdm
  · have h4 : parseDMY '/' (renderMDY (⟨y, m, d, 0, 0, 0⟩ : DT)) = none :=
      parseDMY_renderMDY_none hd12
        (by have := daysInMonth_le y m; omega) hm1 hm2
    simp only [hs, h1, h2, h3, h4,
      parseMDY_render hy1 hy2 hm1 hm2 hd1 hd2]
  · subst hdm
    have h4 : parseDMY '/' (renderMDY (⟨y, d, d, 0, 0, 0⟩ : DT)) =
        some ⟨y, d, d, 0, 0, 0⟩ :=
      parseDMY_renderMDY_eq hy1 hy2 hm1 hm2 hd2
    simp only [hs, h1, h2, h3, h4]

/-! ## Watermark lemmas -/

theorem latestStep_eq (acc : Option DT) (c : Cell) :
    latestStep acc c =
      match (if truthy c = true then cellToDate c else none) with
      | none => acc
      | some d =>
        match acc with
        | none => some d
        | some m0 => if dtLtB m0 d then some d else acc := by
  unfold latestStep
  by_cases h : truthy c = true
  · rw [if_pos h, if_pos h]
  · rw [if_neg h, if_neg h]

theorem latest_foldl_spec : ∀ (cells : List Cell) (acc : Option DT),
    (List.foldl latestStep acc cells = none ↔ acc = none ∧ parseableDates cells = []) ∧
    (∀ m, List.foldl latestStep acc cells = some m →
      (acc = some m ∨ m ∈ parseableDates cells) ∧
      (∀ a0, acc = some a0 → dtLeB a0 m = true) ∧
      (∀ d ∈ parseableDates cells, dtLeB d m = true)) := by
  intro cells
  induction cells with
  | nil =>
    intro acc
    constructor
    · simp [parseableDates]
    · intro m hm
      simp only [List.foldl_nil] at hm
      refine ⟨Or.inl hm, ?_, ?_⟩
      · intro a0 ha0
        rw [ha0] at hm
        injection hm with hm
        rw [hm]
        exact dtLeB_refl m
      · intro d hd
        simp [parseableDates] at hd
  | cons c cs ih =>
    intro acc
    have hstep := latestStep_eq acc c
    cases hc : (if truthy c = true then cellToDate c else none) with
    | none =>
      rw [hc] at hstep
      have hstep2 : latestStep acc c = acc := hstep
      have hpd : parseableDates (c :: cs) = parseableDates cs := by
        simp only [parseableDates, List.filterMap_cons]
        rw [hc]
      constructor
      · rw [List.foldl_cons, hstep2, hpd]
        exact (ih acc).1
      · intro m hm
        rw [List.foldl_cons, hstep2] at hm
        obtain ⟨h1, h2, h3⟩ := (ih acc).2 m hm
        rw [hpd]
        exact ⟨h1, h2, h3⟩
    | some d =>
      rw [hc] at hstep
      have hpd : parseableDates (c :: cs) = d :: parseableDates cs := by
        simp only [parseableDates, List.filterMap_cons]
        rw [hc]
      cases acc with
      | none =>
        have hstep2 : latestStep none c = some d := hstep
        constructor
        · rw [List.foldl_cons, hstep2, hpd]
          constructor
          · intro hn
            obtain ⟨h1, _⟩ := ((ih (some d)).1).mp hn
            exact Option.noConfusion h1
          · rintro ⟨_, h2⟩
            exact absurd h2 (List.cons_ne_nil _ _)
        · intro m hm
          rw [List.foldl_cons, hstep2] at hm
          obtain ⟨h1, h2, h3⟩ := (ih (some d)).2 m hm
          have hdm : dtLeB d m = true := h2 d rfl
          rw [hpd]
          refine ⟨?_, ?_, ?_⟩
          · rcases h1 with h1 | h1
            · injection h1 with h1
              exact Or.inr (by rw [← h1]; exact List.mem_cons_self d _)
            · exact Or.inr (List.mem_cons_of_mem d h1)
          · intro a0 ha0
            exact Option.noConfusion ha0
          · intro x hx
            rcases List.mem_cons.mp hx with rfl | hx
            · exact hdm
            · exact h3 x hx
      | some m0 =>
        have hstep2 : latestStep (some m0) c =
            if dtLtB m0 d = true then some d else some m0 := hstep
        constructor
        · rw [List.foldl_cons, hstep2]
          constructor
          · intro hn
            by_cases hlt : dtLtB m0 d = true
            · rw [if_pos hlt] at hn
              obtain ⟨h1, _⟩ := ((ih (some d)).1).mp hn
              exact Option.noConfusion h1
            · rw [if_neg hlt] at hn
              obtain ⟨h1, _⟩ := ((ih (some m0)).1).mp hn
              exact Option.noConfusion h1
          · rintro ⟨h1, _⟩
            exact Option.noConfusion h1
        · intro m hm
          rw [List.foldl_cons, hstep2] at hm
          rw [hpd]
          by_cases hlt : dtLtB m0 d = true
          · rw [if_pos hlt] at hm
            obtain ⟨h1, h2, h3⟩ := (ih (some d)).2 m hm
            have hdm : dtLeB d m = true := h2 d rfl
            have hm0m : dtLeB m0 m = true := dtLeB_trans (dtLeB_of_dtLtB hlt) hdm
            refine ⟨?_, ?_, ?_⟩
            · rcases h1 with h1 | h1
              · injection h1 with h1
                exact Or.inr (by rw [← h1]; exact List.mem_cons_self d _)
              · exact Or.inr (List.mem_cons_of_mem d h1)
            · intro a0 ha0
              injection ha0 with ha0
              rw [← ha0]
              exact hm0m
            · intro x hx
              rcases List.mem_cons.mp hx with rfl | hx
              · exact hdm
              · exact h3 x hx
          · rw [if_neg hlt] at hm
            obtain ⟨h1, h2, h3⟩ := (ih (some m0)).2 m hm
            have hm0m : dtLeB m0 m = true := h2 m0 rfl
            have hdm : dtLeB d m = true := by
              have hdm0 : dtLeB d m0 = true := dtLeB_not_lt (by simpa using hlt)
              exact dtLeB_trans hdm0 hm0m
            refine ⟨?_, ?_, ?_⟩
            · rcases h1 with h1 | h1
              · exact Or.inl h1
              · exact Or.inr (List.mem_cons_of_mem d h1)
            · intro a0 ha0
              injection ha0 with ha0
              rw [← ha0]
              exact hm0m
            · intro x hx
              rcases List.mem_cons.mp hx with rfl | hx
              · exact hdm
              · exact h3 x hx

theorem bankLoop_eq (latest : Option DT) : ∀ rows : List BankRow,
    bankLoop latest rows =
      (rows.filterMap bankRowParse).filter (fun t => passW latest t.date) := by
  intro rows
  induction rows with
  | nil => rfl
  | cons r rs ih =>
    simp only [bankLoop]
    cases hr : bankRowParse r with
    | none =>
      rw [List.filterMap_cons, hr]
      exact ih
    | some t =>
      rw [List.filterMap_cons, hr, List.filter_cons]
      by_cases hp : passW latest t.date = true
      · simp [hp, ih]
      · simp [hp, ih]

/-! ## Amount and categorizer lemmas -/

theorem floatOrZero_num (q : ℚ) : floatOrZero (Cell.num q) = some q := by
  by_cases h : q = 0 <;> simp [floatOrZero, cellEqZero, cellFloat, h]

theorem replaceAllF_id : ∀ (fuel : Nat) (p r s : List Char),
    containsB p s = false → replaceAllF fuel p r s = s := by
  intro fuel
  induction fuel with
  | zero => intro p r s _; rfl
  | succ n ih =>
    intro p r s h
    cases s with
    | nil => rfl
    | cons c cs =>
      simp only [containsB, Bool.or_eq_false_iff] at h
      simp only [replaceAllF]
      rw [if_neg (by simp [h.1]), ih p r cs h.2]

theorem replaceAll_id {p r s : List Char} (h : containsB p s = false) :
    replaceAll p r s = s := replaceAllF_id s.length p r s h

theorem cleanOperationStr_id {s : List Char}
    (h1 : containsB "BCV-NET ".data s = false)
    (h2 : containsB "VIRT BANC ".data s = false)
    (h3 : containsB "VIR TWINT ".data s = false) :
    cleanOperationStr s = s := by
  simp [cleanOperationStr, h1, h2, h3]

theorem findFirstB_none : ∀ (rules : List BRule) (s : List Char),
    (∀ rule ∈ rules, containsB rule.pat s = false) → findFirstB rules s = none := by
  intro rules s
  induction rules with
  | nil => intro _; rfl
  | cons r rs ih =>
    intro h
    simp only [findFirstB]
    rw [if_neg (by simp [h r (List.mem_cons_self r rs)])]
    exact ih (fun w hw => h w (List.mem_cons_of_mem r hw))

theorem findFirstM_first : ∀ (rules : List MRule) (s : List Char) (i : Nat) (ri : MRule),
    rules.get? i = some ri → containsB ri.pat s = true →
    (∀ k, k < i → ∀ rk, rules.get? k = some rk → containsB rk.pat s = false) →
    findFirstM rules s = some (ri.name, ri.cat) := by
  intro rules
  induction rules with
  | nil => intro s i ri h; simp at h
  | cons r rs ih =>
    intro s i ri hget hcont hbefore
    cases i with
    | zero =>
      simp only [List.get?] at hget
      injection hget with hget
      subst hget
      simp [findFirstM, hcont]
    | succ i' =>
      have h0 : containsB r.pat s = false :=
        hbefore 0 (Nat.succ_pos i') r rfl
      simp only [findFirstM]
      rw [if_neg (by simp [h0])]
      exact ih s i' ri hget hcont
        (fun k hk rk hrk => hbefore (k + 1) (Nat.succ_lt_succ hk) rk hrk)

theorem findFirstM_eraseIdx : ∀ (rules : List MRule) (s : List Char) (i j : Nat) (ri : MRule),
    i < j → rules.get? i = some ri → containsB ri.pat s = true →
    (∀ k, k < i → ∀ rk, rules.get? k = some rk → containsB rk.pat s = false) →
    findFirstM (rules.eraseIdx j) s = findFirstM rules s := by
  intro rules
  induction rules with
  | nil => intro s i j ri _ h; simp at h
  | cons r rs ih =>
    intro s i j ri hij hget hcont hbefore
    cases j with
    | zero => exact absurd hij (Nat.not_lt_zero i)
    | succ j' =>
      rw [List.eraseIdx_cons_succ]
      simp only [findFirstM]
      cases hr : containsB r.pat s
      · rw [if_neg (by simp), if_neg (by simp)]
        cases i with
        | zero =>
          simp only [List.get?] at hget
          injection hget with hget
          rw [hget] at hr
          rw [hr] at hcont
          exact Bool.noConfusion hcont
        | succ i' =>
          exact ih s i' j' ri (Nat.lt_of_succ_lt_succ hij) hget hcont
            (fun k hk rk hrk => hbefore (k + 1) (Nat.succ_lt_succ hk) rk hrk)
      · rw [if_pos rfl, if_pos rfl]

theorem findFirstB_first : ∀ (rules : List BRule) (s : List Char) (i : Nat) (ri : BRule),
    rules.get? i = some ri → containsB ri.pat s = true →
    (∀ k, k < i → ∀ rk, rules.get? k = some rk → containsB rk.pat s = false) →
    findFirstB rules s = some (ri.name, ri.cat, ri.sub) := by
  intro rules
  induction rules with
  | nil => intro s i ri h; simp at h
  | cons r rs ih =>
    intro s i ri hget hcont hbefore
    cases i with
    | zero =>
      simp only [List.get?] at hget
      injection hget with hget
      subst hget
      simp [findFirstB, hcont]
    | succ i' =>
      have h0 : containsB r.pat s = false :=
        hbefore 0 (Nat.succ_pos i') r rfl
      simp only [findFirstB]
      rw [if_neg (by simp [h0])]
      exact ih s i' ri hget hcont
        (fun k hk rk hrk => hbefore (k + 1) (Nat.succ_lt_succ hk) rk hrk)

theorem findFirstB_eraseIdx : ∀ (rules : List BRule) (s : List Char) (i j : Nat) (ri : BRule),
    i < j → rules.get? i = some ri → containsB ri.pat s = true →
    (∀ k, k < i → ∀ rk, rules.get? k = some rk → containsB rk.pat s = false) →
    findFirstB (rules.eraseIdx j) s = findFirstB rules s := by
  intro rules
  induction rules with
  | nil => intro s i j ri _ h; simp at h
  | cons r rs ih =>
    intro s i j ri hij hget hcont hbefore
    cases j with
    | zero => exact absurd hij (Nat.not_lt_zero i)
    | succ j' =>
      rw [List.eraseIdx_cons_succ]
      simp only [findFirstB]
      cases hr : containsB r.pat s
      · rw [if_neg (by simp), if_neg (by simp)]
        cases i with
        | zero =>
          simp only [List.get?] at hget
          injection hget with hget
          rw [hget] at hr
          rw [hr] at hcont
          exact Bool.noConfusion hcont
        | succ i' =>
          exact ih s i' j' ri (Nat.lt_of_succ_lt_succ hij) hget hcont
            (fun k hk rk hrk => hbefore (k + 1) (Nat.succ_lt_succ hk) rk hrk)
      · rw [if_pos rfl, if_pos rfl]

/-! ## Claim theorems -/

/-- C1: the claim (and the spec's idempotence property) is what the
code clearly intends but fails to deliver: a pipeline persists the date
as dd.mm.yyyy text, while the key of the same incoming candidate
renders the date as YYYY-MM-DD, so the two keys never match.  Running
the account pipeline a second time over the workbook updated by the
first run appends the very same transaction again and routes nothing
to the duplicates list. -/
theorem C1_second_run_re_appends :
    (accountRun [] [txMigros]).2.1 = [txMigros] ∧
    buildExisting (accountRun [] [txMigros]).1 =
      [("13.11.2025".data, "Migros".data, 42)] ∧
    candKey txMigros = ("2025-11-13".data, "Migros".data, 42) ∧
    (accountRun (accountRun [] [txMigros]).1 [txMigros]).2.1 = [txMigros] ∧
    (accountRun (accountRun [] [txMigros]).1 [txMigros]).2.2 = [] := by decide

/-- C2 counterexample: in the bank-Excel pipeline a candidate whose key
is already in the existing set is not written to the Duplicates sheet
(which the write phase leaves untouched) — it is silently skipped, only
a counter records it. -/
theorem C2_cex_bank_dup_not_routed :
    bankKey bankDup ∈ [bankKey bankDup] ∧
    bankWritePhase [bankKey bankDup] [bankDup] [] [] = ([], [], 1) := by decide

/-- C2 amended: in the two CSV pipelines every candidate whose key is
in the existing set is written to the shared Duplicates sheet with the
pipeline's fixed reason string; the bank-Excel pipeline instead skips
its duplicates, leaving the Duplicates sheet exactly as it was. -/
theorem C2_amended :
    (∀ (sheet : List RowA) (dupSheet : List DupRow) (reason : List Char)
       (batch : List Trans) (t : Trans),
       t ∈ batch → candKey t ∈ buildExisting sheet →
       dupRowOf reason t ∈ (accountRunFull sheet dupSheet reason batch).2.1) ∧
    (∀ (ex : List BKey) (batch : List BankTrans) (bcv : List BankRow)
       (dupSheet : List DupRow),
       (bankWritePhase ex batch bcv dupSheet).2.1 = dupSheet) := by
  constructor
  · intro sheet dupSheet reason batch t ht hkey
    have hdup := pb_dup_of_mem (buildExisting sheet) batch t ht hkey
    simp only [accountRunFull]
    exact List.mem_append_right _ (List.mem_map_of_mem _ hdup)
  · intro ex batch bcv dupSheet
    rfl

/-- C2 witness: the amended statement applied to one duplicate card
payment and to an empty bank run. -/
theorem C2_amended_witness :
    dupRowOf reasonAccount txMigros ∈
      (accountRunFull [rowMigrosISO] [] reasonAccount [txMigros]).2.1 ∧
    (bankWritePhase [] [] [] []).2.1 = ([] : List DupRow) :=
  ⟨C2_amended.1 [rowMigrosISO] [] reasonAccount [txMigros] txMigros
      (by decide) (by decide),
   C2_amended.2 [] [] [] []⟩

/-- C3 counterexample: the claim asserts round-tripping holds for
month/day/year slash strings with day at most 12, but precisely there
the earlier day/month/year layout claims the string first: 3 May 2025
rendered month-first as "05/03/2025" normalizes to 5 March 2025. -/
theorem C3_cex_mdy_transposed :
    renderMDY ⟨2025, 5, 3, 0, 0, 0⟩ = "05/03/2025".data ∧
    parse_date "05/03/2025".data = some ⟨2025, 3, 5, 0, 0, 0⟩ ∧
    (⟨2025, 3, 5, 0, 0, 0⟩ : DT) ≠ ⟨2025, 5, 3, 0, 0, 0⟩ := by decide

/-- C3 amended: for every calendar date with a four-digit year,
rendering in the dash, dot, year-first or day/month/year slash layout
and parsing recovers the same date; for the month/day/year slash layout
this holds exactly when the day exceeds 12 or equals the month —
otherwise the day/month/year layout, tried earlier, transposes it. -/
theorem C3_date_normalization : ∀ y m d : Nat,
    1000 ≤ y → y ≤ 9999 → 1 ≤ m → m ≤ 12 → 1 ≤ d → d ≤ daysInMonth y m →
    parse_date (renderDMY '-' ⟨y, m, d, 0, 0, 0⟩) = some ⟨y, m, d, 0, 0, 0⟩ ∧
    parse_date (renderDMY '.' ⟨y, m, d, 0, 0, 0⟩) = some ⟨y, m, d, 0, 0, 0⟩ ∧
    parse_date (renderYMD ⟨y, m, d, 0, 0, 0⟩) = some ⟨y, m, d, 0, 0, 0⟩ ∧
    parse_date (renderDMY '/' ⟨y, m, d, 0, 0, 0⟩) = some ⟨y, m, d, 0, 0, 0⟩ ∧
    ((12 < d ∨ d = m) →
      parse_date (renderMDY ⟨y, m, d, 0, 0, 0⟩) = some ⟨y, m, d, 0, 0, 0⟩) := by
  intro y m d hy1 hy2 hm1 hm2 hd1 hd2
  exact ⟨parse_date_dmy_dash hy1 hy2 hm1 hm2 hd1 hd2,
         parse_date_dmy_dot hy1 hy2 hm1 hm2 hd1 hd2,
         parse_date_ymd hy1 hy2 hm1 hm2 hd1 hd2,
         parse_date_dmy_slash hy1 hy2 hm1 hm2 hd1 hd2,
         fun hc => parse_date_mdy hy1 hy2 hm1 hm2 hd1 hd2 hc⟩

/-- C3 witness: 13 November 2025 in all five layouts. -/
theorem C3_witness :
    parse_date "13-11-2025".data = some ⟨2025, 11, 13, 0, 0, 0⟩ ∧
    parse_date "13.11.2025".data = some ⟨2025, 11, 13, 0, 0, 0⟩ ∧
    parse_date "2025-11-13".data = some ⟨2025, 11, 13, 0, 0, 0⟩ ∧
    parse_date "13/11/2025".data = some ⟨2025, 11, 13, 0, 0, 0⟩ ∧
    parse_date "11/13/2025".data = some ⟨2025, 11, 13, 0, 0, 0⟩ := by
  obtain ⟨h1, h2, h3, h4, h5⟩ := C3_date_normalization 2025 11 13
    (by decide) (by decide) (by decide) (by decide) (by decide) (by decide)
  refine ⟨?_, ?_, ?_, ?_, ?_⟩
  · rw [show "13-11-2025".data =
        renderDMY '-' ⟨2025, 11, 13, 0, 0, 0⟩ from by decide]
    exact h1
  · rw [show "13.11.2025".data =
        renderDMY '.' ⟨2025, 11, 13, 0, 0, 0⟩ from by decide]
    exact h2
  · rw [show "2025-11-13".data =
        renderYMD ⟨2025, 11, 13, 0, 0, 0⟩ from by decide]
    exact h3
  · rw [show "13/11/2025".data =
        renderDMY '/' ⟨2025, 11, 13, 0, 0, 0⟩ from by decide]
    exact h4
  · rw [show "11/13/2025".data =
        renderMDY ⟨2025, 11, 13, 0, 0, 0⟩ from by decide]
    exact h5 (Or.inl (by decide))

/-- C4: a key is added to the existing set the moment its transaction
is appended, so appended rows have pairwise-distinct keys; the first
batch element carrying a fresh key is appended, and any element
preceded by a same-key element is routed to the duplicates list. -/
theorem C4_within_batch_dedup : ∀ (ex : List Key) (batch l₁ l₂ : List Trans) (t : Trans),
    batch = l₁ ++ t :: l₂ →
    List.Pairwise (fun a c => candKey a ≠ candKey c) (processBatch ex batch).1 ∧
    (candKey t ∉ ex → (∀ u ∈ l₁, candKey u ≠ candKey t) →
      t ∈ (processBatch ex batch).1) ∧
    ((∃ u ∈ l₁, candKey u = candKey t) → t ∈ (processBatch ex batch).2) := by
  intro ex batch l₁ l₂ t hb
  subst hb
  exact ⟨pb_pairwise ex _,
         fun h1 h2 => pb_first_fresh ex l₁ t l₂ h1 h2,
         fun h => pb_later_dup ex l₁ t l₂ h⟩

/-- C4 witness: two same-key candidates in one batch — the first is
appended, the second routed as a duplicate, appended keys distinct. -/
theorem C4_witness :
    List.Pairwise (fun a c => candKey a ≠ candKey c)
      (processBatch [] [txDupA, txDupB]).1 ∧
    txDupA ∈ (processBatch [] [txDupA, txDupB]).1 ∧
    txDupB ∈ (processBatch [] [txDupA, txDupB]).2 :=
  ⟨(C4_within_batch_dedup [] [txDupA, txDupB] [] [txDupB] txDupA rfl).1,
   (C4_within_batch_dedup [] [txDupA, txDupB] [] [txDupB] txDupA rfl).2.1
      (by decide) (by decide),
   (C4_within_batch_dedup [] [txDupA, txDupB] [txDupA] [] txDupB rfl).2.2
      ⟨txDupA, by decide, by decide⟩⟩

/-- C5 counterexample: `txDupA` is appended and carries the minimum
date among the appended rows, yet nothing is bolded — the emphasis date
is the strictly smaller datetime of the within-batch duplicate
`txDupB`, which shares `txDupA`'s key but not its time of day. -/
theorem C5_cex_bold_misses_min_appended :
    (processBatch [] [txNewer, txDupA, txDupB]).1 = [txNewer, txDupA] ∧
    (processBatch [] [txNewer, txDupA, txDupB]).2 = [txDupB] ∧
    minD ((processBatch [] [txNewer, txDupA, txDupB]).1.map (fun t => t.date)) =
      some txDupA.date ∧
    boldRows [] [txNewer, txDupA, txDupB] = [] := by decide

/-- C5 amended: provided any two same-key candidates of the batch carry
the same datetime (true in the bank and credit-card pipelines, whose
dates have no time of day), exactly the appended rows whose date equals
the minimum date among the appended rows are bolded; no append means no
emphasis, and bolded rows are always a sub-list of the appended rows
(duplicates are never bolded). -/
theorem C5_emphasis : ∀ (ex : List Key) (batch : List Trans),
    (∀ a ∈ batch, ∀ b ∈ batch, candKey a = candKey b → a.date = b.date) →
    (boldRows ex batch =
      match minD ((processBatch ex batch).1.map (fun t => t.date)) with
      | none => []
      | some o => (processBatch ex batch).1.filter (fun t => decide (t.date = o))) ∧
    ((processBatch ex batch).1 = [] → boldRows ex batch = []) ∧
    List.Sublist (boldRows ex batch) (processBatch ex batch).1 := by
  intro ex batch hsame
  have hmin : oldestDate ex batch =
      minD ((processBatch ex batch).1.map (fun t => t.date)) := by
    apply minD_congr
    · intro x hx
      rw [List.mem_map] at hx
      obtain ⟨t, ht, rfl⟩ := hx
      rw [newToAdd, List.mem_filter] at ht
      obtain ⟨htb, hfresh⟩ := ht
      rw [decide_eq_true_eq] at hfresh
      obtain ⟨u, hu, hku⟩ := pb_exists_rep ex batch t htb hfresh
      rw [List.mem_map]
      exact ⟨u, hu, hsame u (pb_app_mem ex batch u hu) t htb hku⟩
    · intro x hx
      rw [List.mem_map] at hx
      obtain ⟨t, ht, rfl⟩ := hx
      rw [List.mem_map]
      refine ⟨t, ?_, rfl⟩
      rw [newToAdd, List.mem_filter, decide_eq_true_eq]
      exact ⟨pb_app_mem ex batch t ht, pb_app_key_not_mem ex batch t ht⟩
  refine ⟨?_, ?_, ?_⟩
  · rw [boldRows, hmin]
  · intro happ
    rw [boldRows, hmin, happ]
    simp [minD]
  · rw [boldRows]
    cases oldestDate ex batch
    · exact List.nil_sublist _
    · exact List.filter_sublist _

/-- C5 witness: the amended statement applied to a batch of two
distinct-key, midnight-dated candidates. -/
theorem C5_emphasis_witness :
    (boldRows [] [txNewer, txZeroAmount] =
      match minD ((processBatch [] [txNewer, txZeroAmount]).1.map (fun t => t.date)) with
      | none => []
      | some o =>
        (processBatch [] [txNewer, txZeroAmount]).1.filter
          (fun t => decide (t.date = o))) ∧
    ((processBatch [] [txNewer, txZeroAmount]).1 = [] →
      boldRows [] [txNewer, txZeroAmount] = []) ∧
    List.Sublist (boldRows [] [txNewer, txZeroAmount])
      (processBatch [] [txNewer, txZeroAmount]).1 :=
  C5_emphasis [] [txNewer, txZeroAmount] (by decide)

/-- C6: the watermark is the maximum parseable date in the reference
sheet's scanned column (`none` exactly when no cell parses); the row
loop keeps precisely the parsed rows whose date passes the watermark
test (strictly greater), and with no watermark every parsed row
proceeds unfiltered. -/
theorem C6_watermark : ∀ (cells : List Cell) (rows : List BankRow),
    (latestDate cells = none ↔ parseableDates cells = []) ∧
    (∀ m, latestDate cells = some m →
      m ∈ parseableDates cells ∧ ∀ d ∈ parseableDates cells, dtLeB d m = true) ∧
    bankLoop (latestDate cells) rows =
      (rows.filterMap bankRowParse).filter
        (fun t => passW (latestDate cells) t.date) ∧
    bankLoop none rows = rows.filterMap bankRowParse := by
  intro cells rows
  have hspec := latest_foldl_spec cells none
  refine ⟨?_, ?_, bankLoop_eq _ rows, ?_⟩
  · unfold latestDate
    rw [hspec.1]
    simp
  · intro m hm
    obtain ⟨h1, _, h3⟩ := hspec.2 m hm
    rcases h1 with h1 | h1
    · exact Option.noConfusion h1
    · exact ⟨h1, h3⟩
  · rw [bankLoop_eq none rows]
    have : (fun (t : BankTrans) => passW none t.date) = fun _ => true := rfl
    rw [this, List.filter_true]

/-- C6 witness: a reference sheet whose maximum parseable date is
13.11.2025 filters a 10.11.2025 row out and lets a 14.11.2025 row
through. -/
theorem C6_watermark_witness :
    ((⟨2025, 11, 13, 0, 0, 0⟩ : DT) ∈ parseableDates wmCells ∧
      ∀ d ∈ parseableDates wmCells, dtLeB d ⟨2025, 11, 13, 0, 0, 0⟩ = true) ∧
    bankLoop (latestDate wmCells) wmRows =
      (wmRows.filterMap bankRowParse).filter
        (fun t => passW (latestDate wmCells) t.date) :=
  ⟨(C6_watermark wmCells wmRows).2.1 ⟨2025, 11, 13, 0, 0, 0⟩ (by decide),
   (C6_watermark wmCells wmRows).2.2.1⟩

/-- C7 counterexample: an input row carrying debit 30 and credit 20
reaches the ledger with both values non-zero — the code never enforces
"at most one non-zero". -/
theorem C7_cex_both_amounts_kept :
    bankRowParse rowBothAmounts =
      some ⟨⟨2025, 11, 13, 0, 0, 0⟩, "Zzz".data, 30, 20, [], []⟩ := by decide

/-- C7 amended: a row whose debit and credit both compare equal to zero
(an absent value is replaced by 0) is dropped before the ledger; a
record that reaches the ledger carries its input row's numeric debit
and credit unchanged and not both zero, so non-negativity and mutual
exclusivity are preserved when the input row satisfies them, but are
not themselves enforced. -/
theorem C7_amount_handling : ∀ (r : BankRow),
    (cellEqZero (debitCell r) = true ∧ cellEqZero (creditCell r) = true →
      bankRowParse r = none) ∧
    (∀ (t : BankTrans) (qd qc : ℚ), bankRowParse r = some t →
      debitCell r = Cell.num qd → creditCell r = Cell.num qc →
      t.debit = qd ∧ t.credit = qc ∧ ¬(qd = 0 ∧ qc = 0) ∧
      ((0 ≤ qd ∧ 0 ≤ qc ∧ ¬(qd ≠ 0 ∧ qc ≠ 0)) →
        0 ≤ t.debit ∧ 0 ≤ t.credit ∧ ¬(t.debit ≠ 0 ∧ t.credit ≠ 0))) := by
  intro r
  constructor
  · rintro ⟨h1, h2⟩
    simp only [bankRowParse]
    split
    · rfl
    · cases cellToDate r.a with
      | none => rfl
      | some d =>
        split
        · rfl
        · simp [h1, h2]
  · intro t qd qc hsome hd hc
    unfold bankRowParse at hsome
    split at hsome
    · exact Option.noConfusion hsome
    · split at hsome
      · exact Option.noConfusion hsome
      · split at hsome
        · exact Option.noConfusion hsome
        · split at hsome
          · exact Option.noConfusion hsome
          · rename_i hguard
            rw [hd, hc] at hguard
            have hnz : ¬(qd = 0 ∧ qc = 0) := by
              simpa [cellEqZero] using hguard
            rw [hd, hc, floatOrZero_num, floatOrZero_num] at hsome
            split at hsome
            injection hsome with hsome
            rw [← hsome]
            refine ⟨rfl, rfl, hnz, ?_⟩
            rintro ⟨hqd, hqc, hone⟩
            exact ⟨hqd, hqc, hone⟩

/-- C7 witness: the amended statement applied to a zero-zero row and to
a debit-only row. -/
theorem C7_witness :
    bankRowParse ⟨Cell.text "13.11.2025".data, Cell.text "Zzz".data,
      Cell.num 0, Cell.empty⟩ = none ∧
    ((⟨⟨2025, 11, 13, 0, 0, 0⟩, "Zzz".data, 30, 0, [], []⟩ : BankTrans).debit = 30 ∧
      (⟨⟨2025, 11, 13, 0, 0, 0⟩, "Zzz".data, 30, 0, [], []⟩ : BankTrans).credit = 0) :=
  ⟨(C7_amount_handling ⟨Cell.text "13.11.2025".data, Cell.text "Zzz".data,
      Cell.num 0, Cell.empty⟩).1 (by decide),
   ⟨((C7_amount_handling ⟨Cell.text "13.11.2025".data, Cell.text "Zzz".data,
      Cell.num 30, Cell.empty⟩).2
      ⟨⟨2025, 11, 13, 0, 0, 0⟩, "Zzz".data, 30, 0, [], []⟩ 30 0
      (by decide) (by decide) (by decide)).1,
    ((C7_amount_handling ⟨Cell.text "13.11.2025".data, Cell.text "Zzz".data,
      Cell.num 30, Cell.empty⟩).2
      ⟨⟨2025, 11, 13, 0, 0, 0⟩, "Zzz".data, 30, 0, [], []⟩ 30 0
      (by decide) (by decide) (by decide)).2.1⟩⟩

/-- C8 counterexample: "BCV-NET Zzz" matches no rule, yet the returned
label is the marker-stripped "Zzz", not the original input text. -/
theorem C8_cex_marker_stripped :
    (∀ rule ∈ bank_categories,
      containsB rule.pat (cleanOperationStr "BCV-NET Zzz".data) = false) ∧
    clean_bank_operation_and_categorize (some "BCV-NET Zzz".data) =
      ("Zzz".data, [], []) ∧
    "Zzz".data ≠ "BCV-NET Zzz".data := by decide

/-- C8 amended: when no rule pattern occurs in the marker-stripped
text, the function returns the marker-stripped text with empty category
and sub-category; that equals the original input exactly when none of
the three source markers occurs in it. -/
theorem C8_no_match_returns_stripped : ∀ s : List Char,
    (∀ rule ∈ bank_categories, containsB rule.pat (cleanOperationStr s) = false) →
    clean_bank_operation_and_categorize (some s) = (cleanOperationStr s, [], []) ∧
    (containsB "BCV-NET ".data s = false → containsB "VIRT BANC ".data s = false →
      containsB "VIR TWINT ".data s = false →
      clean_bank_operation_and_categorize (some s) = (s, [], [])) := by
  intro s h
  have hf := findFirstB_none bank_categories (cleanOperationStr s) h
  constructor
  · simp [clean_bank_operation_and_categorize, hf]
  · intro h1 h2 h3
    have hcl := cleanOperationStr_id h1 h2 h3
    rw [hcl] at hf
    simp [clean_bank_operation_and_categorize, cleanOperationStr, h1, h2, h3, hf, hcl]

/-- C8 witness: a marker-free unmatched text passes through unchanged. -/
theorem C8_witness :
    clean_bank_operation_and_categorize (some "Xyzzy qwfp".data) =
      ("Xyzzy qwfp".data, [], []) :=
  (C8_no_match_returns_stripped "Xyzzy qwfp".data (by decide)).2
    (by decide) (by decide) (by decide)

/-- C9: in both categorizers, when the text matches rules i and j with
i earlier in table order, and no rule before i matches, the result is
rule i's output (label, category — and sub-category for the
operation-style table, whose scan runs on the marker-stripped text),
and deleting rule j from the table does not change the result. -/
theorem C9_first_match_wins :
    (∀ (s : List Char) (i j : Nat) (ri rj : MRule),
      i < j →
      merchant_categories.get? i = some ri →
      merchant_categories.get? j = some rj →
      containsB ri.pat s = true → containsB rj.pat s = true →
      (∀ k, k < i → ∀ rk, merchant_categories.get? k = some rk →
        containsB rk.pat s = false) →
      clean_merchant_and_categorize (some s) = (ri.name, ri.cat) ∧
      findFirstM (merchant_categories.eraseIdx j) s =
        findFirstM merchant_categories s) ∧
    (∀ (s : List Char) (i j : Nat) (ri rj : BRule),
      i < j →
      bank_categories.get? i = some ri →
      bank_categories.get? j = some rj →
      containsB ri.pat (cleanOperationStr s) = true →
      containsB rj.pat (cleanOperationStr s) = true →
      (∀ k, k < i → ∀ rk, bank_categories.get? k = some rk →
        containsB rk.pat (cleanOperationStr s) = false) →
      clean_bank_operation_and_categorize (some s) =
        (ri.name.getD (cleanOperationStr s), ri.cat, ri.sub) ∧
      findFirstB (bank_categories.eraseIdx j) (cleanOperationStr s) =
        findFirstB bank_categories (cleanOperationStr s)) := by
  constructor
  · intro s i j ri rj hij hgi hgj hci hcj hbefore
    constructor
    · simp [clean_merchant_and_categorize,
        findFirstM_first merchant_categories s i ri hgi hci hbefore]
    · exact findFirstM_eraseIdx merchant_categories s i j ri hij hgi hci hbefore
  · intro s i j ri rj hij hgi hgj hci hcj hbefore
    constructor
    · simp [clean_bank_operation_and_categorize,
        findFirstB_first bank_categories (cleanOperationStr s) i ri hgi hci hbefore]
    · exact findFirstB_eraseIdx bank_categories (cleanOperationStr s) i j ri
        hij hgi hci hbefore

/-- C9 witness: "Migros Aldi" matches merchant rules 0 and 1 — the
result is rule 0's output and erasing rule 1 does not change it; and
"Duol Leni" matches bank rules 1 and 3 — the result is rule 1's
(category "Chant Cred", sub-category "Duol") and erasing rule 3 does
not change it. -/
theorem C9_witness :
    (clean_merchant_and_categorize (some "Migros Aldi".data) =
      ("Migros".data, "Food".data) ∧
     findFirstM (merchant_categories.eraseIdx 1) "Migros Aldi".data =
      findFirstM merchant_categories "Migros Aldi".data) ∧
    (clean_bank_operation_and_categorize (some "Duol Leni".data) =
      ("Duol Leni".data, "Chant Cred".data, "Duol".data) ∧
     findFirstB (bank_categories.eraseIdx 3) (cleanOperationStr "Duol Leni".data) =
      findFirstB bank_categories (cleanOperationStr "Duol Leni".data)) := by
  have hm := C9_first_match_wins.1 "Migros Aldi".data 0 1
    ⟨"Migros".data, "Migros".data, "Food".data⟩
    ⟨"Aldi".data, "Aldi".data, "Food".data⟩
    (by decide) (by decide) (by decide) (by decide) (by decide)
    (fun k hk rk _ => absurd hk (Nat.not_lt_zero k))
  have hb := C9_first_match_wins.2 "Duol Leni".data 1 3
    ⟨"Duol".data, none, "Chant Cred".data, "Duol".data⟩
    ⟨"Leni".data, none, "Kids Deb".data, "".data⟩
    (by decide) (by decide) (by decide) (by decide) (by decide)
    (by
      intro k hk rk hrk
      interval_cases k
      simp only [List.get?] at hrk
      injection hrk with hrk
      subst hrk
      decide)
  exact ⟨hm, hb.1.trans (by decide), hb.2⟩

/-- C10: a persisted row with a falsy (empty, None or zero) date,
label or amount cell, or a non-numeric amount cell, contributes no key
to the existing set, so a candidate with the very same key is appended
again instead of being routed to the duplicates sheet. -/
theorem C10_zeroish_rows_contribute_no_key : ∀ (r : RowA) (t : Trans),
    (truthy r.a = false ∨ truthy r.b = false ∨ truthy r.c = false ∨
      cellFloat r.c = none) →
    rowKey r = none ∧
    buildExisting [r] = [] ∧
    (accountRun [r] [t]).2.1 = [t] ∧
    (accountRun [r] [t]).2.2 = [] := by
  intro r t h
  have hk : rowKey r = none := by
    obtain ⟨a, b, c⟩ := r
    simp only [rowKey]
    rcases h with h | h | h | h
    · simp [h]
    · simp [h]
    · simp [h]
    · split
      · simp only at h
        rw [h]
      · rfl
  have hb : buildExisting [r] = [] := by simp [buildExisting, hk]
  refine ⟨hk, hb, ?_, ?_⟩
  · simp [accountRun, hb, processBatch]
  · simp [accountRun, hb, processBatch]

/-- C10 witness: a zero-amount persisted row contributes no key and its
zero-amount twin candidate is appended again. -/
theorem C10_witness :
    rowKey rowZeroAmount = none ∧
    buildExisting [rowZeroAmount] = [] ∧
    (accountRun [rowZeroAmount] [txZeroAmount]).2.1 = [txZeroAmount] ∧
    (accountRun [rowZeroAmount] [txZeroAmount]).2.2 = [] :=
  C10_zeroish_rows_contribute_no_key rowZeroAmount txZeroAmount (by decide)

end Monthly
